import Mathlib

/-!
Verification of the ASTra control layer (SUMO/TraCI bridge) against its
natural-language specification.

Python strings are embedded as lists of characters (`PyStr`), Python floats
appearing in time/distance arithmetic as rationals, Python dictionaries as
association lists in insertion order (Python dict equality is key/value
equality, which list equality refines), and fallible Python code (uncaught
exceptions such as IndexError/KeyError/StopIteration/NameError) as `Option`
with `none` for a raised exception.  Each definition mirrors one function of
the source tree, named after it; the file the function comes from is named in
the doc comment.
-/

/-- Embedding of a Python string: a list of characters. -/
abbrev PyStr := List Char

/-- Convenience conversion for concrete examples. -/
def pys (s : String) : PyStr := s.data

/-- Python `str.split(sep)` for a one-character separator: `"".split(sep)`
yields `[""]`, and consecutive separators yield empty fields. -/
def splitOnChar (sep : Char) : PyStr → List PyStr
  | [] => [[]]
  | c :: rest =>
    match splitOnChar sep rest with
    | [] => [[]]
    | t :: ts => if c = sep then [] :: t :: ts else (c :: t) :: ts

/-- Python `sep.join(parts)` for a one-character separator. -/
def joinSep (sep : Char) : List PyStr → PyStr
  | [] => []
  | [x] => x
  | x :: y :: rest => x ++ sep :: joinSep sep (y :: rest)

/-- `sharedFunctions.isJunction` (src/astra/sharedFunctions.py): tests whether
`edgeId[0] == ':'`; `none` models the IndexError raised on an empty id. -/
def isJunction : PyStr → Option Bool
  | [] => none
  | c :: _ => some (c = ':')

/-- `sharedFunctions.getOppositeEdge` (src/astra/sharedFunctions.py): strips a
leading `'-'` or prepends one; `none` models the IndexError raised on an
empty id by `edge[0]`. -/
def getOppositeEdge : PyStr → Option PyStr
  | [] => none
  | c :: rest => if c = '-' then some rest else some ('-' :: c :: rest)

/-- `sharedFunctions.getJunctionId` (src/astra/sharedFunctions.py):
`junctionEdgeId[1:junctionEdgeId.index('_')]`; `none` models the ValueError
raised by `index` when no `'_'` occurs. -/
def getJunctionId (junctionEdgeId : PyStr) : Option PyStr :=
  (junctionEdgeId.findIdx? (· = '_')).map fun i => (junctionEdgeId.take i).drop 1

/-- Python dictionary assignment `d[k] = v` on an association list: replaces
the value of an existing key in place, otherwise appends the new binding. -/
def dictInsert (d : List (PyStr × α)) (k : PyStr) (v : α) : List (PyStr × α) :=
  if (List.lookup k d).isSome then
    d.map fun p => if p.1 = k then (k, v) else p
  else d ++ [(k, v)]

/-- Python `del d[k]` on an association list. -/
def dictErase (d : List (PyStr × α)) (k : PyStr) : List (PyStr × α) :=
  d.filter fun p => ¬ p.1 = k

/-!
## Manager.initTraciConnection (src/src/Manager.py, lines 67-90)

The retry loop is embedded with the attempt outcomes supplied as an oracle
(`attempt step = true` iff the `step`-th `traci.init` call succeeds) and the
loop bound `maxRetry` supplied as fuel, which is exactly the source's
`step < maxRetry` guard.  The result records whether a connection was
established (`false` means the source reaches `sys.exit(0)`, the fatal path)
together with the list of sleep durations performed, in order.
-/

/-- Sleep update after a failed attempt: `if sleep >= 4: sleep = 5 else:
sleep *= 2` (src/src/Manager.py lines 79-82). -/
def nextTraciSleep (sleep : ℕ) : ℕ :=
  if sleep ≥ 4 then 5 else 2 * sleep

/-- The retry loop of `initTraciConnection`, fuel = `maxRetry - step`. -/
def initTraciLoop (attempt : ℕ → Bool) : ℕ → ℕ → ℕ → Bool × List ℕ
  | _, _, 0 => (false, [])
  | sleep, step, fuel + 1 =>
    if attempt step then (true, [])
    else
      let r := initTraciLoop attempt (nextTraciSleep sleep) (step + 1) fuel
      (r.1, sleep :: r.2)

/-- `Manager.initTraciConnection` (src/src/Manager.py): starts with
`sleep = 1`, `step = 0`. -/
def initTraciConnection (attempt : ℕ → Bool) (maxRetry : ℕ) : Bool × List ℕ :=
  initTraciLoop attempt 1 0 maxRetry

/-- Spec-side closed form of the sleep before the n-th retry. -/
def cappedBackoff (n : ℕ) : ℕ :=
  if n = 0 then 1 else if n = 1 then 2 else if n = 2 then 4 else 5

/-- The sleeps produced by the loop from a given current sleep value. -/
def traciSleepsFrom (sleep : ℕ) : ℕ → List ℕ
  | 0 => []
  | n + 1 => sleep :: traciSleepsFrom (nextTraciSleep sleep) n

/-!
## DuarouterRoute.runDuarouterRouteSolver (src/src/DuarouterRoute.py, 88-105)

The subprocess is embedded as a launch outcome plus a poll oracle
(`alive k = true` iff `duarouterProcess.poll()` still returns `None` at the
k-th poll).  `runTime` advances by `DUAROUTER_SLEEP_TIME` per iteration, so
after `k` sleeps `runTime = k * DUAROUTER_SLEEP_TIME` (exact rational
arithmetic in place of float accumulation).  The loop performs at most 200
sleeps before `runTime < DUAROUTER_MAX_SLEEP_TIME` fails, so fuel 201 is
never exhausted.
-/

def DUAROUTER_ERROR_LAUNCH : ℕ := 2
def ROUTE_TIMEOUT_ERROR : ℕ := 6
def ROUTE_ERROR_CONNECTION : ℕ := 1
def DUAROUTER_SLEEP_TIME : ℚ := 1 / 10
def DUAROUTER_MAX_SLEEP_TIME : ℚ := 20

/-- The polling loop of `runDuarouterRouteSolver`: returns the number of
sleeps performed when the loop exits. -/
def duarouterPollLoop (alive : ℕ → Bool) : ℕ → ℕ → ℕ
  | 0, k => k
  | fuel + 1, k =>
    if alive k = true ∧ (k : ℚ) * DUAROUTER_SLEEP_TIME < DUAROUTER_MAX_SLEEP_TIME then
      duarouterPollLoop alive fuel (k + 1)
    else k

/-- `DuarouterRoute.runDuarouterRouteSolver` (src/src/DuarouterRoute.py):
`launched = false` models `subprocess.Popen` raising. -/
def runDuarouterRouteSolver (launched : Bool) (alive : ℕ → Bool) : ℕ :=
  if ¬launched then DUAROUTER_ERROR_LAUNCH
  else
    let k := duarouterPollLoop alive 201 0
    if (k : ℚ) * DUAROUTER_SLEEP_TIME ≥ DUAROUTER_MAX_SLEEP_TIME then ROUTE_TIMEOUT_ERROR
    else 0

/-!
## TrafficLights.updateTllForPriorityVehicles ownership arbitration
(src/src/TrafficLights.py, lines 410-415)

The scan step for one signal reached by one vehicle's lookahead, given that
an out lane was found and the set-state is not IGNORE:

  if (tllId in managedTllDict and managedTllDict[tllId][1] > remainingLength)
     or not tllId in managedTllDict:
      managedTllDict[tllId] = (vehicleId, remainingLength)
      changeState(...)

The boolean in the result records whether `changeState` was invoked.
-/

def priorityVehicleArbitration (managedTllDict : List (PyStr × PyStr × ℚ))
    (tllId vehicleId : PyStr) (remainingLength : ℚ) :
    List (PyStr × PyStr × ℚ) × Bool :=
  match List.lookup tllId managedTllDict with
  | some entry =>
    if entry.2 > remainingLength then
      (dictInsert managedTllDict tllId (vehicleId, remainingLength), true)
    else (managedTllDict, false)
  | none => (dictInsert managedTllDict tllId (vehicleId, remainingLength), true)

/-!
## Simulation arrival processing (src/src/Simulation.py, lines 48-78)

`removeArrivedVehicles` begins every loop iteration with
`if not constants.IGNORED_VEHICLES_REGEXP.match(vehicle)`, but the module
binds no name `vehicle` (it imports only functions *from* the vehicle
module), so the first iteration raises NameError; the exception escapes the
function (it has no handler) and nothing is removed.  `none` models that
exception.  The ignore-pattern regular expression and the blocked-id test of
`Vehicle.getRegularVehicles` (src/src/Vehicle.py, lines 284-289) are
externally-defined predicates here.
-/

def removeArrivedVehicles (arrivedVehicles : List PyStr)
    (priorityVehicles vehicles : List PyStr)
    (managedTllDict : List (PyStr × PyStr × ℚ)) :
    Option (List PyStr × List PyStr × List (PyStr × PyStr × ℚ)) :=
  match arrivedVehicles with
  | [] => some (priorityVehicles, vehicles, managedTllDict)
  | _ :: _ => none

/-- `Vehicle.getRegularVehicles` (src/src/Vehicle.py). -/
def getRegularVehicles (ignored isBlockedId : PyStr → Bool)
    (vehicles : List PyStr) : List PyStr :=
  vehicles.filter fun v => ¬ ignored v ∧ ¬ isBlockedId v

/-- `Simulation.notifyAndUpdateArrivedVehicles` (src/src/Simulation.py):
filters the arrived ids through `getRegularVehicles` and then calls
`removeArrivedVehicles` (the message sending in between does not touch the
three collections). -/
def notifyAndUpdateArrivedVehicles (ignored isBlockedId : PyStr → Bool)
    (arrivedRaw : List PyStr) (priorityVehicles vehicles : List PyStr)
    (managedTllDict : List (PyStr × PyStr × ℚ)) :
    Option (List PyStr × List PyStr × List (PyStr × PyStr × ℚ)) :=
  removeArrivedVehicles (getRegularVehicles ignored isBlockedId arrivedRaw)
    priorityVehicles vehicles managedTllDict

/-!
## Graph dictionary persistence (src/src/Graph.py, lines 112-259)

The cache files are embedded as lists of lines (each line a `PyStr` without
its terminating newline): `file.write(token)`/`file.write(END_OF_LINE)`
produce the lines, and `file.readline()[0:-1]` returns the next line, or the
empty string at end of file.  `SEPARATOR` is `' '`, `END_OF_LINE` is `'\n'`.
The junctions dictionary maps a junction id to its pair
(predecessor edge set, successor edge set); sets are embedded as lists in
iteration order (Python set equality is membership equality, which list
equality refines).  Graph traversal costs are Python floats written with
`str` and read with `float`; the cost type `α` together with its print
function `pr` and parse function `pa` is kept abstract, the two being
builtins outside this repository.
-/

/-- `Graph.exportJunctionsDictionary` (src/src/Graph.py lines 112-139):
three lines per entry: the key, the space-joined predecessor set, the
space-joined successor set. -/
def exportJunctionsDictionary (junctionsDict : List (PyStr × (List PyStr × List PyStr))) :
    List PyStr :=
  junctionsDict.flatMap fun p => [p.1, joinSep ' ' p.2.1, joinSep ' ' p.2.2]

/-- `Graph.importJunctionsDictionary` (src/src/Graph.py lines 143-167):
reads a key line, then one line per set, split on the separator, until the
key line read is empty (Python string falsiness ends the `while key` loop). -/
def importJunctionsDictionary : List PyStr → List (PyStr × (List PyStr × List PyStr))
  | [] => []
  | key :: rest =>
    if key = [] then []
    else
      match rest with
      | [] => [(key, (splitOnChar ' ' [], splitOnChar ' ' []))]
      | l1 :: [] => [(key, (splitOnChar ' ' l1, splitOnChar ' ' []))]
      | l1 :: l2 :: rest2 =>
        (key, (splitOnChar ' ' l1, splitOnChar ' ' l2)) :: importJunctionsDictionary rest2

/-- `Graph.exportEdgesDictionary` (src/src/Graph.py lines 177-190): one line
per entry: key, predecessor junction, successor junction, space-separated. -/
def exportEdgesDictionary (edgesDict : List (PyStr × (PyStr × PyStr))) : List PyStr :=
  edgesDict.map fun p => joinSep ' ' [p.1, p.2.1, p.2.2]

/-- `Graph.importEdgesDictionary` (src/src/Graph.py lines 194-207): splits
each non-empty line and takes fields 0, 1, 2 (`none` models the IndexError
raised when a line has fewer than three fields). -/
def importEdgesDictionary : List PyStr → Option (List (PyStr × (PyStr × PyStr)))
  | [] => some []
  | line :: rest =>
    if line = [] then some []
    else
      match splitOnChar ' ' line with
      | k :: f :: t :: _ =>
        (importEdgesDictionary rest).map fun d => (k, (f, t)) :: d
      | _ => none

/-- `Graph.exportGraph` (src/src/Graph.py lines 217-233): one line per entry:
the key followed by alternating successor ids and printed costs. -/
def exportGraph (pr : α → PyStr) (graph : List (PyStr × List (PyStr × α))) : List PyStr :=
  graph.map fun p => joinSep ' ' (p.1 :: p.2.flatMap fun q => [q.1, pr q.2])

/-- Parses the alternating successor/cost fields of one graph line
(src/src/Graph.py lines 248-253); `none` models the IndexError raised by
`lineArray[i+1]` on an odd field count. -/
def importGraphPairs (pa : PyStr → α) : List PyStr → Option (List (PyStr × α))
  | [] => some []
  | [_] => none
  | s :: c :: rest => (importGraphPairs pa rest).map fun d => (s, pa c) :: d

/-- `Graph.importGraph` (src/src/Graph.py lines 237-259). -/
def importGraph (pa : PyStr → α) : List PyStr → Option (List (PyStr × List (PyStr × α)))
  | [] => some []
  | line :: rest =>
    if line = [] then some []
    else
      match splitOnChar ' ' line with
      | [] => none
      | k :: fields => do
        let succs ← importGraphPairs pa fields
        let d ← importGraph pa rest
        pure ((k, succs) :: d)

/-- Python `==` on two junction dictionaries: equal key sets and, per key,
equal member sets (order-insensitive). -/
def pyJunctionsDictEq (d e : List (PyStr × (List PyStr × List PyStr))) : Bool :=
  (d.all fun p => e.any fun q =>
    q.1 = p.1 ∧ (p.2.1.all (q.2.1.contains ·) ∧ q.2.1.all (p.2.1.contains ·))
      ∧ (p.2.2.all (q.2.2.contains ·) ∧ q.2.2.all (p.2.2.contains ·))) &&
  (e.all fun q => d.any fun p => p.1 = q.1)

/-!
## duarouterRoute.getBestRouteFromXml
(src/astra/duarouterRoute.py lines 110-131 and src/src/DuarouterRoute.py
lines 109-127)

The parsed solver output is embedded as the list of candidate routes in
document order, each a reported cost (a rational, standing for the float
`cost` attribute) paired with the raw `edges` attribute string, which the
source splits on the separator only after selection.
-/

/-- Selection loop of the astra variant: sentinel `minCost = -1`,
`if minCost == -1 or tmpCost < minCost`. -/
def bestRouteFoldAstra (xmlRoutes : List (ℚ × PyStr)) : ℚ × PyStr :=
  xmlRoutes.foldl
    (fun acc node => if acc.1 = -1 ∨ node.1 < acc.1 then node else acc)
    (-1, [])

/-- `duarouterRoute.getBestRouteFromXml` (src/astra/duarouterRoute.py). -/
def getBestRouteFromXmlAstra (xmlRoutes : List (ℚ × PyStr)) : ℕ × Option (List PyStr) :=
  match xmlRoutes with
  | [] => (ROUTE_ERROR_CONNECTION, none)
  | _ :: _ => (0, some (splitOnChar ' ' (bestRouteFoldAstra xmlRoutes).2))

/-- Selection loop of the src variant: sentinel `edges = ''`,
`if not(edges) or tmpCost < minCost` (`minCost` is only read once `edges` is
non-empty, so the initial cost value below is never consulted). -/
def bestRouteFoldSrc (xmlRoutes : List (ℚ × PyStr)) : ℚ × PyStr :=
  xmlRoutes.foldl
    (fun acc node => if acc.2 = [] ∨ node.1 < acc.1 then node else acc)
    (0, [])

/-- `DuarouterRoute.getBestRouteFromXml` (src/src/DuarouterRoute.py). -/
def getBestRouteFromXmlSrc (xmlRoutes : List (ℚ × PyStr)) : ℕ × Option (List PyStr) :=
  match xmlRoutes with
  | [] => (ROUTE_ERROR_CONNECTION, none)
  | _ :: _ => (0, some (splitOnChar ' ' (bestRouteFoldSrc xmlRoutes).2))

/-- Spec-side selection: the first candidate of minimal reported cost. -/
def firstMinimalRoute : List (ℚ × PyStr) → Option (ℚ × PyStr)
  | [] => none
  | x :: rest =>
    match firstMinimalRoute rest with
    | none => some x
    | some m => if m.1 < x.1 then some m else some x

/-!
## dijkstraRoute.processRouteRequest (src/astra/dijkstraRoute.py, lines 26-86)

The module `dijkstra` imported by dijkstraRoute.py is not part of the source
tree; its `shortestPath` is supplied as an oracle `sp`, with `sp s d = none`
modelling a raised exception (which the source catches, returning
`ROUTE_ERROR_CONNECTION`).  An overall result of `none` models an uncaught
exception: IndexError from `pop` on an empty list, StopIteration from
`.next()` on an empty set, KeyError from a missing junction id, or the
IndexError inside `getOppositeEdge`.
-/

/-- Resolution of a junction endpoint:
`iter(junctionsDict[getJunctionId(x)][i]).next()` with `pick` selecting the
predecessor (`Prod.fst`) or successor (`Prod.snd`) edge set. -/
def resolveJunctionEdge (junctionsDict : List (PyStr × (List PyStr × List PyStr)))
    (pick : List PyStr × List PyStr → List PyStr) (x : PyStr) : Option PyStr := do
  let jid ← getJunctionId x
  match List.lookup jid junctionsDict with
  | none => none
  | some sets => (pick sets).head?

/-- Final trimming after the loop (src/astra/dijkstraRoute.py lines 83-84):
`if len(route) > 1 and route[-2] == getOppositeEdge(route[-1]): route.pop()`. -/
def routeFinalTrim (route : List PyStr) : Option (List PyStr) :=
  if 1 < route.length then
    match route.getLast? with
    | none => none
    | some lastE =>
      match getOppositeEdge lastE with
      | none => none
      | some opp =>
        if route[route.length - 2]? = some opp then some route.dropLast else some route
  else some route

/-- One leg's trimming of the first edge on the first iteration
(src/astra/dijkstraRoute.py lines 59-62). -/
def firstLegTrim (srcJunction : Bool) (tmpRoute : List PyStr) : Option (List PyStr) :=
  if srcJunction && !tmpRoute.isEmpty then some tmpRoute.tail
  else
    match tmpRoute with
    | e0 :: e1 :: _ =>
      match getOppositeEdge e0 with
      | none => none
      | some opp => if e1 = opp then some tmpRoute.tail else some tmpRoute
    | _ => some tmpRoute

/-- The destination loop of `dijkstraRoute.processRouteRequest`
(src/astra/dijkstraRoute.py lines 42-80). -/
def dijkstraRouteLoop (sp : PyStr → PyStr → Option (List PyStr))
    (junctionsDict : List (PyStr × (List PyStr × List PyStr))) :
    List PyStr → PyStr → List PyStr → Bool → Bool → Option (ℕ × Option (List PyStr))
  | [], _, route, _, _ => (routeFinalTrim route).map fun r => (0, some r)
  | dest :: rest, src, route, first, srcJunction => do
    let dj ← isJunction dest
    let destResolved ←
      if dj then resolveJunctionEdge junctionsDict Prod.snd dest else pure dest
    match sp src destResolved with
    | none => some (ROUTE_ERROR_CONNECTION, none)
    | some tmpRoute0 => do
      let tmpRoute1 ← if first then firstLegTrim srcJunction tmpRoute0 else pure tmpRoute0
      let tmpRoute2 := if dj && !tmpRoute1.isEmpty then tmpRoute1.dropLast else tmpRoute1
      let tmpRoute3 ←
        if first then pure tmpRoute2
        else
          match tmpRoute2 with
          | [] => none
          | _ :: t => pure t
      let src2 :=
        match tmpRoute3.getLast? with
        | some e => e
        | none => destResolved
      dijkstraRouteLoop sp junctionsDict rest src2 (route ++ tmpRoute3) false srcJunction

/-- `dijkstraRoute.processRouteRequest` (src/astra/dijkstraRoute.py). -/
def processRouteRequest (sp : PyStr → PyStr → Option (List PyStr))
    (junctionsDict : List (PyStr × (List PyStr × List PyStr)))
    (src : PyStr) (destinations : List PyStr) : Option (ℕ × Option (List PyStr)) := do
  let sj ← isJunction src
  if sj then do
    let src2 ← resolveJunctionEdge junctionsDict Prod.fst src
    dijkstraRouteLoop sp junctionsDict destinations src2 [] true true
  else dijkstraRouteLoop sp junctionsDict destinations src [] true false

/-- Spec-side: the successive per-leg search results, each leg's source being
the previous leg's terminal edge. -/
def legsOf (sp : PyStr → PyStr → Option (List PyStr)) (src : PyStr) :
    List PyStr → List (List PyStr)
  | [] => []
  | d :: ds =>
    match sp src d with
    | none => []
    | some r => r :: legsOf sp (r.getLast?.getD src) ds

/-- Spec-side stitching: the first leg followed by every later leg with its
leading edge dropped. -/
def stitchLegs : List (List PyStr) → List PyStr
  | [] => []
  | l :: ls => l ++ (ls.map List.tail).flatten

/-- Successor relation of a finite routing graph given as an edge-pair list. -/
def graphSuccB (gpairs : List (PyStr × PyStr)) (a b : PyStr) : Bool :=
  decide ((a, b) ∈ gpairs)

/-- Boolean adjacency chain along a list. -/
def chainB (R : PyStr → PyStr → Bool) : List PyStr → Bool
  | [] => true
  | [_] => true
  | a :: b :: rest => R a b && chainB R (b :: rest)

/-- A sound per-leg search result: nonempty, starts at the requested source,
ends at the requested destination, follows graph successors, and all its edge
ids are nonempty strings. -/
def legOkB (gpairs : List (PyStr × PyStr)) (s d : PyStr) (r : List PyStr) : Bool :=
  !r.isEmpty && r.head? == some s && r.getLast? == some d &&
    chainB (graphSuccB gpairs) r && r.all (!·.isEmpty)

/-- All per-leg searches of a request succeed with sound results. -/
def callsOkB (gpairs : List (PyStr × PyStr)) (sp : PyStr → PyStr → Option (List PyStr)) :
    PyStr → List PyStr → Bool
  | _, [] => true
  | src, d :: ds =>
    match sp src d with
    | none => false
    | some r => legOkB gpairs src d r && callsOkB gpairs sp (r.getLast?.getD src) ds

/-- The first leg does not begin with an anti-parallel edge pair, so the
first-iteration trim of the source is a no-op. -/
def firstLegNoTrimB : List (List PyStr) → Bool
  | [] => true
  | r :: _ =>
    match r with
    | e0 :: e1 :: _ => !(some e1 == getOppositeEdge e0)
    | _ => true

/-- Whether the final-trim condition of lines 83-84 fires on a route. -/
def lastPairOppositeB (r : List PyStr) : Bool :=
  decide (1 < r.length) && ((r[r.length - 2]?) == (r.getLast?.bind getOppositeEdge))

/-- Junction contiguity of two consecutive route edges: both edges are in the
edges dictionary and the first edge's end junction equals the second edge's
start junction. -/
def junctionsMatch (edgesDict : List (PyStr × (PyStr × PyStr))) (a b : PyStr) : Bool :=
  match List.lookup a edgesDict, List.lookup b edgesDict with
  | some pa, some pb => pa.2 == pb.1
  | _, _ => false

/-!
## duarouterRoute.processRouteRequest (src/astra/duarouterRoute.py, 134-200)

The per-destination loop (lines 150-200) is the same iteration body as
`dijkstraRoute.processRouteRequest`; the leg stage — `writeTrips`,
`runDuarouterRouteSolver` and `getBestRouteFromXml` on the trip
`(src, destResolved)` — is supplied as an oracle `leg`, with `Sum.inl rc`
a non-zero return code from either stage (the loop returns `(rc, None)`)
and `Sum.inr tmpRoute` the parsed route of a code-0 run.
-/

/-- The oracle view of the leg stage as a search function: `some` exactly on
successful legs. -/
def spOfLeg (leg : PyStr → PyStr → ℕ ⊕ List PyStr) : PyStr → PyStr → Option (List PyStr) :=
  fun s d =>
    match leg s d with
    | Sum.inl _ => none
    | Sum.inr r => some r

/-- The destination loop of `duarouterRoute.processRouteRequest`
(src/astra/duarouterRoute.py lines 150-200): junction resolution, first-leg
trim, junction-destination pop, unconditional later-leg `pop(0)`, extension,
source update — line for line the dijkstra loop of lines 42-80 of
src/astra/dijkstraRoute.py. -/
def duarouterRouteLoop (leg : PyStr → PyStr → ℕ ⊕ List PyStr)
    (junctionsDict : List (PyStr × (List PyStr × List PyStr))) :
    List PyStr → PyStr → List PyStr → Bool → Bool → Option (ℕ × Option (List PyStr))
  | [], _, route, _, _ => (routeFinalTrim route).map fun r => (0, some r)
  | dest :: rest, src, route, first, srcJunction => do
    let dj ← isJunction dest
    let destResolved ←
      if dj then resolveJunctionEdge junctionsDict Prod.snd dest else pure dest
    match leg src destResolved with
    | Sum.inl rc => some (rc, none)
    | Sum.inr tmpRoute0 => do
      let tmpRoute1 ← if first then firstLegTrim srcJunction tmpRoute0 else pure tmpRoute0
      let tmpRoute2 := if dj && !tmpRoute1.isEmpty then tmpRoute1.dropLast else tmpRoute1
      let tmpRoute3 ←
        if first then pure tmpRoute2
        else
          match tmpRoute2 with
          | [] => none
          | _ :: t => pure t
      let src2 :=
        match tmpRoute3.getLast? with
        | some e => e
        | none => destResolved
      duarouterRouteLoop leg junctionsDict rest src2 (route ++ tmpRoute3) false srcJunction

/-- `duarouterRoute.processRouteRequest` (src/astra/duarouterRoute.py). -/
def duarouterProcessRouteRequest (leg : PyStr → PyStr → ℕ ⊕ List PyStr)
    (junctionsDict : List (PyStr × (List PyStr × List PyStr)))
    (src : PyStr) (destinations : List PyStr) : Option (ℕ × Option (List PyStr)) := do
  let sj ← isJunction src
  if sj then do
    let src2 ← resolveJunctionEdge junctionsDict Prod.fst src
    duarouterRouteLoop leg junctionsDict destinations src2 [] true true
  else duarouterRouteLoop leg junctionsDict destinations src [] true false

/-!
## DuarouterRoute.processRouteRequest (src/src/DuarouterRoute.py, 135-162)

This variant resolves the trip endpoints inside `getTrips`, applies
`SharedFunctions.correctRoute` to every leg, pops the leading edge of every
leg after the first, and performs no final trim; its source update
`src = tmpRoute[-1]` is guarded by the accumulated route being non-empty,
so it raises IndexError when a later leg empties while the route is not
empty.
-/

/-- `SharedFunctions.correctRoute` (src/src/SharedFunctions.py lines 48-58):
under `len(route) > 1`, pop the head when the second edge is the opposite of
the source (or the source is a junction), then pop the tail when the
destination is a junction or `route[-2]` is the opposite of the destination;
`none` models the IndexError of `route[-2]` on a short list and the
IndexError inside `isJunction`/`getOppositeEdge` on an empty id. -/
def correctRoute (edgeSrc edgeDest : PyStr) (route : List PyStr) : Option (List PyStr) :=
  if 1 < route.length then do
    let js ← isJunction edgeSrc
    let pop1 ←
      if js then pure true
      else do
        let o ← getOppositeEdge edgeSrc
        pure (route[1]? == some o)
    let route1 := if pop1 then route.tail else route
    let jd2 ← isJunction edgeDest
    let pop2 ←
      if jd2 then pure true
      else if route1.length < 2 then none
      else do
        let v ← route1[route1.length - 2]?
        let o ← getOppositeEdge edgeDest
        pure (v == o)
    pure (if pop2 then route1.dropLast else route1)
  else pure route

/-- The destination loop of `DuarouterRoute.processRouteRequest`
(src/src/DuarouterRoute.py lines 139-160). -/
def srcDuaRouteLoop (leg : PyStr → PyStr → ℕ ⊕ List PyStr)
    (junctionsDict : List (PyStr × (List PyStr × List PyStr))) :
    List PyStr → PyStr → List PyStr → Bool → Option (ℕ × Option (List PyStr))
  | [], _, route, _ => some (0, some route)
  | dest :: rest, src, route, first => do
    let js ← isJunction src
    let tripSrc ← if js then resolveJunctionEdge junctionsDict Prod.fst src else pure src
    let jd2 ← isJunction dest
    let tripDest ← if jd2 then resolveJunctionEdge junctionsDict Prod.snd dest else pure dest
    match leg tripSrc tripDest with
    | Sum.inl rc => some (rc, none)
    | Sum.inr tmpRoute0 => do
      let tmpRoute1 ← correctRoute src dest tmpRoute0
      let tmpRoute2 ←
        if first then pure tmpRoute1
        else
          match tmpRoute1 with
          | [] => none
          | _ :: t => pure t
      let route2 := route ++ tmpRoute2
      let src2 ←
        if route2.isEmpty then pure src
        else
          match tmpRoute2.getLast? with
          | some e => pure e
          | none => none
      srcDuaRouteLoop leg junctionsDict rest src2 route2 false

/-- `DuarouterRoute.processRouteRequest` (src/src/DuarouterRoute.py). -/
def srcDuaProcessRouteRequest (leg : PyStr → PyStr → ℕ ⊕ List PyStr)
    (junctionsDict : List (PyStr × (List PyStr × List PyStr)))
    (src : PyStr) (destinations : List PyStr) : Option (ℕ × Option (List PyStr)) :=
  srcDuaRouteLoop leg junctionsDict destinations src [] true

/-- A leg does not begin with an anti-parallel edge pair. -/
def noOppStartB : List PyStr → Bool
  | e0 :: e1 :: _ => !(some e1 == getOppositeEdge e0)
  | _ => true

/-- A leg on which `correctRoute` between its own endpoints is the identity:
no leading and no trailing anti-parallel pair. -/
def legCleanB (r : List PyStr) : Bool := noOppStartB r && !lastPairOppositeB r

/-!
## TrafficLights.changeState and its helpers (src/src/TrafficLights.py)

The TraCI queries made inside `changeState` are embedded as an explicit
signal-environment record: the controlled lanes, the per-lane outgoing links
(each link's target lane id, `tmpLinks[j][0]`), the complete phase
definition, the current phase index, the current time and the next switch
time (milliseconds, as rationals in place of floats).  `getPhasesDetails`,
which re-parses the `repr` of the TraCI logic object into the alternating
`state0 duration0 state1 duration1 ...` list, is embedded as the phase list
itself: one `TllPhase` pair per `(state, duration)` entry, with the source's
flattened indices `2*i` and `2*i+1` becoming the two components of entry `i`.
-/

def ACK_OK : ℕ := 0
def TLL_PHASE_DURATION_ERROR : ℕ := 23
def SET_YELLOW : ℕ := 1
def SET_GREEN : ℕ := 2
def RED : Char := 'r'
def YELLOW : Char := 'y'
def GREEN : Char := 'g'
def GREEN_PRIO : Char := 'G'
def TLL_MIN_PHASE_DURATION : ℤ := 1000
def SUMO_SIMULATION_STEP_TIME : ℚ := 1
def PRIORITY_VEHICLE_KM_PER_SEC_SPEED : ℚ := 50 * 1000 / 3600
def GREEN_LENGTH_ANTICIPATION : ℚ := 50
def YELLOW_LENGTH_ANTICIPATION : ℚ := 100

/-- `int(ceil(GREEN_LENGTH_ANTICIPATION / PRIORITY_VEHICLE_KM_PER_SEC_SPEED
/ SUMO_SIMULATION_STEP_TIME))` = ceil(50 / (125/9) / 1) = ceil(3.6); the
ceiling formula is proved as `GREEN_STEPS_ANTICIPATION_eq` below. -/
def GREEN_STEPS_ANTICIPATION : ℤ := 4

/-- `int(ceil(YELLOW_LENGTH_ANTICIPATION / PRIORITY_VEHICLE_KM_PER_SEC_SPEED
/ SUMO_SIMULATION_STEP_TIME))` = ceil(7.2); proved as
`YELLOW_STEPS_ANTICIPATION_eq` below. -/
def YELLOW_STEPS_ANTICIPATION : ℤ := 8

/-- One phase of a signal program: its state string and duration (ms). -/
abbrev TllPhase := PyStr × ℤ

/-- The TraCI-visible state of one signal consulted by `changeState`. -/
structure TraciTllState where
  controlledLanes : List PyStr
  links : PyStr → List PyStr
  program : List TllPhase
  phaseIndex : ℕ
  currentTime : ℚ
  nextSwitch : ℚ

/-- The TraCI mutation performed by one `changeState` call. -/
inductive TllAction where
  | noAction : TllAction
  | setPhase (phaseIndex : ℕ) : TllAction
  | setProgram (phasesDetails : List TllPhase) (currentPhaseIndex : ℕ)
      (phaseDuration : ℤ) : TllAction
deriving DecidableEq

instance : DecidableEq (List (PyStr × List TllPhase) × TllAction) :=
  @instDecidableEqProd _ _ (by infer_instance) (by infer_instance)

/-- `TrafficLights.getOrangeState` (src/src/TrafficLights.py lines 146-157). -/
def getOrangeState (currentState : PyStr) (prioLaneIndex : ℕ) : PyStr :=
  currentState.enum.map fun p =>
    if p.1 = prioLaneIndex then p.2
    else if p.2 = YELLOW then RED
    else if p.2 = GREEN ∨ p.2 = GREEN_PRIO then YELLOW
    else p.2

/-- Helper of `removeDoubles`, carrying `tmpItem`. -/
def removeDoublesAux : Option PyStr → List PyStr → List PyStr
  | _, [] => []
  | tmp, x :: rest =>
    if some x = tmp then removeDoublesAux tmp rest
    else x :: removeDoublesAux (some x) rest

/-- `TrafficLights.removeDoubles` (src/src/TrafficLights.py lines 161-169). -/
def removeDoubles (l : List PyStr) : List PyStr := removeDoublesAux none l

/-- `TrafficLights.getHiddenLaneIndex` (src/src/TrafficLights.py lines
188-212), accumulating in `acc`; stops at the first link of `inLane` whose
target is `outLane`, adds the link count of every other lane scanned before,
and adds nothing for an occurrence of `inLane` without a matching link. -/
def getHiddenLaneIndex (links : PyStr → List PyStr) :
    List PyStr → PyStr → PyStr → ℕ → ℕ
  | [], _, _, acc => acc
  | lane :: rest, inLane, outLane, acc =>
    let tmpLinks := links lane
    if lane = inLane then
      match tmpLinks.findIdx? (· = outLane) with
      | some j => acc + j
      | none => getHiddenLaneIndex links rest inLane outLane acc
    else getHiddenLaneIndex links rest inLane outLane (acc + tmpLinks.length)

/-- `TrafficLights.getGreenPhaseIndex` (src/src/TrafficLights.py lines
228-238): index of the first phase whose state is green for the hidden lane;
`none` models the exception raised when the hidden-lane index is out of range
in a state (IndexError) or no phase is green (NameError on the unbound
`phaseIndex`). -/
def getGreenPhaseIndex : List TllPhase → ℕ → Option ℕ
  | [], _ => none
  | p :: rest, h =>
    match p.1[h]? with
    | none => none
    | some c =>
      if c = GREEN ∨ c = GREEN_PRIO then some 0
      else (getGreenPhaseIndex rest h).map (· + 1)

/-- `TrafficLights.setCompletePhasesDefinition` (src/src/TrafficLights.py
lines 485-511): returns the error code without mutating anything when a
duration is below the minimum, otherwise the mutation installing the phase
list at the given index; `none` models the IndexError computing
`phasesDetails[currentPhaseIndex * 2 + 1]`. -/
def setCompletePhasesDefinition (phasesDetails : List TllPhase)
    (currentPhaseIndex : ℕ) : Option (ℕ × TllAction) :=
  match phasesDetails.find? (fun p => decide (p.2 < TLL_MIN_PHASE_DURATION)) with
  | some _ => some (TLL_PHASE_DURATION_ERROR, TllAction.noAction)
  | none =>
    match phasesDetails[currentPhaseIndex]? with
    | none => none
    | some ph =>
      some (ACK_OK, TllAction.setProgram phasesDetails currentPhaseIndex (ph.2 / 1000))

/-- `TrafficLights.restorePreviousPhaseDefinition` (src/src/TrafficLights.py
lines 219-224): installs the saved phase list at the green phase index and
deletes the signal's entry from `yellowTllDict`; `none` models the KeyError
on a missing entry. -/
def restorePreviousPhaseDefinition (yellowTllDict : List (PyStr × List TllPhase))
    (tllId : PyStr) (greenPhaseIndex : ℕ) :
    Option (List (PyStr × List TllPhase) × TllAction) :=
  match List.lookup tllId yellowTllDict with
  | none => none
  | some previousPhaseDetails =>
    (setCompletePhasesDefinition previousPhaseDetails greenPhaseIndex).map
      fun r => (dictErase yellowTllDict tllId, r.2)

/-- The `elif` chain of `changeState` below its first branch
(src/src/TrafficLights.py lines 319-344). -/
def changeStateRest (tllId : PyStr) (setState : ℕ)
    (yellowTllDict : List (PyStr × List TllPhase)) (isOrange : Bool)
    (hiddenLaneIndex currentPhaseIndex : ℕ) (nextSwitchStep : ℚ)
    (phasesDetails : List TllPhase) (currentState : PyStr) :
    Option (List (PyStr × List TllPhase) × TllAction) :=
  if setState = SET_YELLOW then
    let newState := getOrangeState currentState hiddenLaneIndex
    let orangePhasesDetails :=
      phasesDetails.set currentPhaseIndex (newState, YELLOW_STEPS_ANTICIPATION * 1000)
    let yellow2 := dictInsert yellowTllDict tllId phasesDetails
    (setCompletePhasesDefinition orangePhasesDetails currentPhaseIndex).map
      fun r => (yellow2, r.2)
  else if setState = SET_GREEN then
    match currentState[hiddenLaneIndex]? with
    | none => none
    | some c =>
      if ¬((c = GREEN ∨ c = GREEN_PRIO) ∧
            nextSwitchStep - (GREEN_STEPS_ANTICIPATION : ℚ) > 0) then
        match getGreenPhaseIndex phasesDetails hiddenLaneIndex with
        | none => none
        | some greenPhaseIndex =>
          if isOrange then
            restorePreviousPhaseDefinition yellowTllDict tllId greenPhaseIndex
          else some (yellowTllDict, TllAction.setPhase greenPhaseIndex)
      else some (yellowTllDict, TllAction.noAction)
  else some (yellowTllDict, TllAction.noAction)

/-- `TrafficLights.changeState` (src/src/TrafficLights.py lines 280-344). -/
def changeState (env : TraciTllState) (tllId inLane outLane : PyStr)
    (setState : ℕ) (yellowTllDict : List (PyStr × List TllPhase)) :
    Option (List (PyStr × List TllPhase) × TllAction) :=
  let isOrange := (List.lookup tllId yellowTllDict).isSome
  if setState = SET_YELLOW ∧ isOrange = true then some (yellowTllDict, TllAction.noAction)
  else
    let lanes := removeDoubles env.controlledLanes
    let hiddenLaneIndex := getHiddenLaneIndex env.links lanes inLane outLane 0
    let currentPhaseIndex := env.phaseIndex
    let nextSwitchStep : ℚ :=
      (env.nextSwitch - env.currentTime) / 1000 / SUMO_SIMULATION_STEP_TIME
    let phasesDetails := env.program
    match phasesDetails[currentPhaseIndex]? with
    | none => none
    | some currentPhase =>
      let currentState := currentPhase.1
      if currentState.length = hiddenLaneIndex then some (yellowTllDict, TllAction.noAction)
      else
        if (setState = SET_YELLOW ∨ setState = SET_GREEN) ∧ isOrange = false then
          match currentState[hiddenLaneIndex]? with
          | none => none
          | some c =>
            if c = GREEN ∨ c = GREEN_PRIO then
              if nextSwitchStep - (YELLOW_STEPS_ANTICIPATION : ℚ) < 0 then
                some (yellowTllDict, TllAction.setPhase currentPhaseIndex)
              else some (yellowTllDict, TllAction.noAction)
            else
              changeStateRest tllId setState yellowTllDict isOrange hiddenLaneIndex
                currentPhaseIndex nextSwitchStep phasesDetails currentState
        else
          changeStateRest tllId setState yellowTllDict isOrange hiddenLaneIndex
            currentPhaseIndex nextSwitchStep phasesDetails currentState

/-!
# Theorems
-/

/-- Claim C10, counterexample: the edge id `"-"` is non-empty and does not
begin with two `'-'` characters, yet `getOppositeEdge(getOppositeEdge("-"))`
raises (IndexError on the empty intermediate id) instead of returning `"-"`,
so the claimed involution fails at it. -/
theorem C10_counterexample :
    (getOppositeEdge (pys "-")).bind getOppositeEdge = none ∧
    pys "-" ≠ ([] : PyStr) ∧ (pys "-").take 2 ≠ pys "--" := by
  decide

/-- Claim C10 (amended): `getOppositeEdge` maps a non-empty edge id beginning
with `'-'` to that id with the leading `'-'` removed and any other non-empty
edge id to the id with `'-'` prepended; it is an involution on every
non-empty edge id that does not begin with two `'-'` characters and is not
the single-character id `"-"`. -/
theorem C10_getOppositeEdge_spec (e : PyStr) (he : e ≠ []) :
    (∀ t, e = '-' :: t → getOppositeEdge e = some t) ∧
    (e.head? ≠ some '-' → getOppositeEdge e = some ('-' :: e)) ∧
    (e.take 2 ≠ ['-', '-'] → e ≠ ['-'] →
      (getOppositeEdge e).bind getOppositeEdge = some e) := by
  obtain ⟨c, rest, rfl⟩ : ∃ c rest, e = c :: rest := by
    cases e with
    | nil => exact absurd rfl he
    | cons c rest => exact ⟨c, rest, rfl⟩
  refine ⟨?_, ?_, ?_⟩
  · rintro t h
    injection h with h1 h2
    subst h1; subst h2
    simp [getOppositeEdge]
  · intro hh
    have hc : c ≠ '-' := by simpa using hh
    simp [getOppositeEdge, hc]
  · intro h2 h1
    by_cases hc : c = '-'
    · subst hc
      cases rest with
      | nil => exact absurd rfl h1
      | cons c2 r2 =>
        have hc2 : c2 ≠ '-' := by
          intro h
          subst h
          exact h2 rfl
        simp [getOppositeEdge, hc2]
    · simp [getOppositeEdge, hc]

/-- Witness for C10_getOppositeEdge_spec at the concrete id `"ab"`. -/
theorem C10_getOppositeEdge_spec_witness :
    pys "ab" ≠ ([] : PyStr) ∧
    (getOppositeEdge (pys "ab")).bind getOppositeEdge = some (pys "ab") :=
  ⟨by decide, (C10_getOppositeEdge_spec (pys "ab") (by decide)).2.2 (by decide) (by decide)⟩

/-- Claim C6, counterexample: with every connection attempt failing, the
fourth sleep performed by `initTraciConnection` is 5 seconds, not the 4
claimed by the `1,2,4,4,5,5,...` sequence (the code jumps from 4 straight to
the cap: `if sleep >= 4: sleep = 5`). -/
theorem C6_counterexample :
    ((initTraciConnection (fun _ => false) 20).2)[3]? = some 5 ∧ (5 : ℕ) ≠ 4 := by
  decide

/-- The retry loop with every attempt failing returns the fatal outcome and
the sleeps generated from the current sleep value. -/
theorem initTraciLoop_allFail (attempt : ℕ → Bool) (h : ∀ k, attempt k = false) :
    ∀ fuel sleep step,
      initTraciLoop attempt sleep step fuel = (false, traciSleepsFrom sleep fuel) := by
  intro fuel
  induction fuel with
  | zero => intro sleep step; rfl
  | succ n ih =>
    intro sleep step
    simp [initTraciLoop, h step, traciSleepsFrom, ih]

/-- Stepping the sleep value follows the closed-form backoff. -/
theorem nextTraciSleep_cappedBackoff (k : ℕ) :
    nextTraciSleep (cappedBackoff k) = cappedBackoff (k + 1) := by
  match k with
  | 0 => decide
  | 1 => decide
  | 2 => decide
  | m + 3 =>
    unfold cappedBackoff
    rw [if_neg (by omega), if_neg (by omega), if_neg (by omega),
      if_neg (by omega), if_neg (by omega), if_neg (by omega)]
    decide

/-- The sleeps from the k-th attempt on are the closed-form values. -/
theorem traciSleepsFrom_capped :
    ∀ n k, traciSleepsFrom (cappedBackoff k) n =
      (List.range n).map (fun i => cappedBackoff (k + i)) := by
  intro n
  induction n with
  | zero => intro k; rfl
  | succ m ih =>
    intro k
    have step : traciSleepsFrom (cappedBackoff k) (m + 1) =
        cappedBackoff k :: traciSleepsFrom (cappedBackoff (k + 1)) m := by
      simp only [traciSleepsFrom, nextTraciSleep_cappedBackoff]
    rw [step, ih (k + 1), List.range_succ_eq_map]
    simp only [List.map_cons, List.map_map, Nat.add_zero]
    refine congrArg _ ?_
    refine List.map_congr_left fun i _ => ?_
    simp only [Function.comp_apply]
    refine congrArg _ ?_
    omega

/-- Claim C6 (amended): with every connection attempt failing, the sleep
durations before successive retries follow the capped sequence
1, 2, 4, 5, 5, 5, ... (doubling, with the cap of 5 reached directly after 4),
and after `maxRetry` failed attempts the connection is abandoned as fatal
(the `false` outcome is the source's `sys.exit(0)` path). -/
theorem C6_initTraciConnection_backoff (attempt : ℕ → Bool) (maxRetry : ℕ)
    (h : ∀ k, attempt k = false) :
    initTraciConnection attempt maxRetry =
      (false, (List.range maxRetry).map cappedBackoff) := by
  rw [initTraciConnection, initTraciLoop_allFail attempt h maxRetry 1 0]
  have h1 : (1 : ℕ) = cappedBackoff 0 := rfl
  rw [h1, traciSleepsFrom_capped maxRetry 0]
  refine congrArg _ ?_
  refine List.map_congr_left fun i _ => ?_
  simp

/-- Witness for C6_initTraciConnection_backoff with 6 always-failing
attempts. -/
theorem C6_initTraciConnection_backoff_witness :
    initTraciConnection (fun _ => false) 6 = (false, [1, 2, 4, 5, 5, 5]) := by
  rw [C6_initTraciConnection_backoff (fun _ => false) 6 (fun _ => rfl)]
  decide

/-- Claim C4, counterexample: the signal `tl1` is claimed by another vehicle
`v1` at remaining distance 5, which is not smaller than the scanning vehicle
`v2`'s remaining distance 5, yet the scan skips the signal (no ownership
update, no transition), while the claim requires the ownership entry to be
set and the transition run in every non-smaller case. -/
theorem C4_counterexample :
    priorityVehicleArbitration [(pys "tl1", (pys "v1", 5))] (pys "tl1") (pys "v2") 5 =
      ([(pys "tl1", (pys "v1", 5))], false) ∧
    List.lookup (pys "tl1") [(pys "tl1", (pys "v1", 5))] = some (pys "v1", 5) ∧
    pys "v1" ≠ pys "v2" ∧ ¬((5 : ℚ) < 5) := by
  constructor
  · rfl
  · refine ⟨rfl, by decide, by norm_num⟩

/-- Claim C4 (amended): the scan skips a signal (ownership unchanged, no
transition) exactly when it already has an owner — any vehicle, including the
scanning one — whose recorded remaining distance is smaller than **or equal
to** this vehicle's; otherwise the ownership entry is set to (this vehicle,
its remaining distance) and the PREPARING/OVERRIDDEN transition is run. -/
theorem C4_arbitration_spec (d : List (PyStr × PyStr × ℚ)) (tllId veh : PyStr)
    (rem : ℚ) :
    (∀ e, List.lookup tllId d = some e → e.2 ≤ rem →
      priorityVehicleArbitration d tllId veh rem = (d, false)) ∧
    (∀ e, List.lookup tllId d = some e → rem < e.2 →
      priorityVehicleArbitration d tllId veh rem =
        (dictInsert d tllId (veh, rem), true)) ∧
    (List.lookup tllId d = none →
      priorityVehicleArbitration d tllId veh rem =
        (dictInsert d tllId (veh, rem), true)) := by
  refine ⟨?_, ?_, ?_⟩
  · intro e he hle
    simp only [priorityVehicleArbitration, he]
    rw [if_neg (not_lt.mpr hle)]
  · intro e he hlt
    simp only [priorityVehicleArbitration, he]
    rw [if_pos hlt]
  · intro he
    simp only [priorityVehicleArbitration, he]

/-- Witness for C4_arbitration_spec: a closer vehicle takes over ownership. -/
theorem C4_arbitration_spec_witness :
    priorityVehicleArbitration [(pys "tl1", (pys "v1", 5))] (pys "tl1") (pys "v2") 3 =
      ([(pys "tl1", (pys "v2", 3))], true) := by
  rw [(C4_arbitration_spec [(pys "tl1", (pys "v1", 5))] (pys "tl1") (pys "v2") 3).2.1
    (pys "v1", 5) rfl (by norm_num)]
  decide

/-- Claim C9: the code is wrong.  At a step whose arrived list contains the
single regular vehicle `veh1` (not matching the ignore pattern, not a
blocked-vehicle id), `notifyAndUpdateArrivedVehicles` raises NameError —
`removeArrivedVehicles` tests the ignore pattern against the unbound name
`vehicle` instead of the loop variable `vehicleId` — so the vehicle is
removed from none of the vehicles list, the priority list, or the
signal-ownership map, contradicting the claim (and the function's own
docstring). -/
theorem C9_notifyAndUpdateArrivedVehicles_crashes :
    notifyAndUpdateArrivedVehicles (fun _ => false)
      (fun v => decide (v.take 3 = pys "BLO"))
      [pys "veh1"] [pys "veh1"] [pys "veh1"] [(pys "tl1", (pys "veh1", 5))] = none := by
  rfl

/-- Accumulated poll time, in exact arithmetic: `k` sleeps stay below the
timeout iff fewer than 200 polls have elapsed. -/
theorem pollTime_lt_iff (k : ℕ) :
    (k : ℚ) * DUAROUTER_SLEEP_TIME < DUAROUTER_MAX_SLEEP_TIME ↔ k < 200 := by
  rw [DUAROUTER_SLEEP_TIME, DUAROUTER_MAX_SLEEP_TIME, mul_one_div,
    div_lt_iff₀ (by norm_num)]
  norm_num

/-- The polling loop stops after `min termPoll 200` sleeps when the process
is observed alive at exactly the polls before `termPoll`. -/
theorem duarouterPollLoop_stops (alive : ℕ → Bool) (termPoll : ℕ)
    (h : ∀ k, alive k = decide (k < termPoll)) :
    ∀ fuel k, min termPoll 200 ≤ k + fuel → k ≤ min termPoll 200 →
      duarouterPollLoop alive fuel k = min termPoll 200 := by
  intro fuel
  induction fuel with
  | zero =>
    intro k h1 h2
    have : k = min termPoll 200 := by omega
    simpa [duarouterPollLoop] using this
  | succ n ih =>
    intro k h1 h2
    rcases lt_or_eq_of_le h2 with hk | hk
    · have halive : alive k = true := by
        rw [h k]
        simp only [decide_eq_true_eq]
        omega
      have htime : (k : ℚ) * DUAROUTER_SLEEP_TIME < DUAROUTER_MAX_SLEEP_TIME := by
        rw [pollTime_lt_iff]
        omega
      simp only [duarouterPollLoop]
      rw [if_pos ⟨halive, htime⟩]
      exact ih (k + 1) (by omega) (by omega)
    · subst hk
      simp only [duarouterPollLoop]
      rw [if_neg]
      rintro ⟨ha, ht⟩
      rw [pollTime_lt_iff] at ht
      rw [h] at ha
      simp only [decide_eq_true_eq] at ha
      omega

/-- Claim C8: `runDuarouterRouteSolver` returns `DUAROUTER_ERROR_LAUNCH` when
the router process cannot be started; otherwise it polls every
`DUAROUTER_SLEEP_TIME` seconds and returns `ROUTE_TIMEOUT_ERROR` when the
process is still alive at every poll within `DUAROUTER_MAX_SLEEP_TIME`
(that is, the termination poll count reaches the 200-poll budget), and 0 when
the process is observed terminated strictly within the bound. -/
theorem C8_runDuarouterRouteSolver_spec (launched : Bool) (alive : ℕ → Bool)
    (termPoll : ℕ) (h : ∀ k, alive k = decide (k < termPoll)) :
    (launched = false → runDuarouterRouteSolver launched alive = DUAROUTER_ERROR_LAUNCH) ∧
    (launched = true → DUAROUTER_MAX_SLEEP_TIME ≤ (termPoll : ℚ) * DUAROUTER_SLEEP_TIME →
      runDuarouterRouteSolver launched alive = ROUTE_TIMEOUT_ERROR) ∧
    (launched = true → (termPoll : ℚ) * DUAROUTER_SLEEP_TIME < DUAROUTER_MAX_SLEEP_TIME →
      runDuarouterRouteSolver launched alive = 0) := by
  have hloop : duarouterPollLoop alive 201 0 = min termPoll 200 :=
    duarouterPollLoop_stops alive termPoll h 201 0 (by omega) (by omega)
  refine ⟨?_, ?_, ?_⟩
  · intro hl
    subst hl
    rfl
  · intro hl hb
    subst hl
    have hterm : 200 ≤ termPoll := by
      by_contra hc
      rw [not_le] at hc
      rw [← pollTime_lt_iff] at hc
      exact absurd hb (not_le.mpr hc)
    have hmin : min termPoll 200 = 200 := by omega
    simp only [runDuarouterRouteSolver, hloop, hmin]
    rw [if_neg (by simp), if_pos]
    rw [ge_iff_le, ← not_lt, pollTime_lt_iff]
    omega
  · intro hl hb
    subst hl
    rw [pollTime_lt_iff] at hb
    have hmin : min termPoll 200 = termPoll := by omega
    simp only [runDuarouterRouteSolver, hloop, hmin]
    rw [if_neg (by simp), if_neg]
    rw [ge_iff_le, not_le, pollTime_lt_iff]
    omega

/-- Witness for C8_runDuarouterRouteSolver_spec: a process observed
terminated at the third poll yields return code 0, and a launch failure
yields the launch error code. -/
theorem C8_runDuarouterRouteSolver_spec_witness :
    runDuarouterRouteSolver true (fun k => decide (k < 3)) = 0 ∧
    runDuarouterRouteSolver false (fun k => decide (k < 3)) = DUAROUTER_ERROR_LAUNCH :=
  ⟨(C8_runDuarouterRouteSolver_spec true (fun k => decide (k < 3)) 3
      (fun _ => rfl)).2.2 rfl (by norm_num [DUAROUTER_SLEEP_TIME, DUAROUTER_MAX_SLEEP_TIME]),
    (C8_runDuarouterRouteSolver_spec false (fun k => decide (k < 3)) 3
      (fun _ => rfl)).1 rfl⟩

/-- Claim C7, counterexample: a candidate whose reported cost is exactly the
astra variant's sentinel value -1 reopens the selection, so with candidates
of costs -1 and 5 the code returns the cost-5 route although the cost(-1)
route is the unique minimum. -/
theorem C7_counterexample :
    getBestRouteFromXmlAstra [(-1, pys "a"), (5, pys "b")] = (0, some [pys "b"]) ∧
    (-1 : ℚ) < 5 ∧ pys "b" ≠ pys "a" := by
  refine ⟨rfl, by norm_num, by decide⟩

/-- Unfolding equation for `firstMinimalRoute` on a cons cell. -/
theorem firstMinimalRoute_cons (x : ℚ × PyStr) (r : List (ℚ × PyStr)) :
    firstMinimalRoute (x :: r) =
      match firstMinimalRoute r with
      | none => some x
      | some m => if m.1 < x.1 then some m else some x := rfl

/-- Cons equation when the tail holds no candidate. -/
theorem firstMinimalRoute_cons_none {x : ℚ × PyStr} {r : List (ℚ × PyStr)}
    (h : firstMinimalRoute r = none) : firstMinimalRoute (x :: r) = some x := by
  rw [firstMinimalRoute_cons, h]

/-- Cons equation when the tail holds a first minimal candidate. -/
theorem firstMinimalRoute_cons_some {x m : ℚ × PyStr} {r : List (ℚ × PyStr)}
    (h : firstMinimalRoute r = some m) :
    firstMinimalRoute (x :: r) = if m.1 < x.1 then some m else some x := by
  rw [firstMinimalRoute_cons, h]

/-- `firstMinimalRoute` returns `none` only on the empty candidate list. -/
theorem firstMinimalRoute_eq_none {l : List (ℚ × PyStr)} :
    firstMinimalRoute l = none ↔ l = [] := by
  cases l with
  | nil => simp [firstMinimalRoute]
  | cons x r =>
    simp only [List.cons_ne_nil, iff_false]
    cases hr : firstMinimalRoute r with
    | none => rw [firstMinimalRoute_cons_none hr]; simp
    | some m =>
      rw [firstMinimalRoute_cons_some hr]
      by_cases h : m.1 < x.1 <;> simp [h]

/-- The first minimal candidate is a candidate. -/
theorem firstMinimalRoute_mem {l : List (ℚ × PyStr)} {m : ℚ × PyStr}
    (h : firstMinimalRoute l = some m) : m ∈ l := by
  induction l generalizing m with
  | nil => exact absurd h (by simp [firstMinimalRoute])
  | cons x r ih =>
    cases hr : firstMinimalRoute r with
    | none =>
      rw [firstMinimalRoute_cons_none hr] at h
      injection h with h
      exact h ▸ List.mem_cons_self x r
    | some m2 =>
      rw [firstMinimalRoute_cons_some hr] at h
      by_cases hlt : m2.1 < x.1
      · rw [if_pos hlt] at h
        injection h with h
        exact h ▸ List.mem_cons_of_mem x (ih hr)
      · rw [if_neg hlt] at h
        injection h with h
        exact h ▸ List.mem_cons_self x r

/-- The first minimal candidate has minimal reported cost. -/
theorem firstMinimalRoute_le {l : List (ℚ × PyStr)} {m : ℚ × PyStr}
    (h : firstMinimalRoute l = some m) : ∀ c ∈ l, m.1 ≤ c.1 := by
  induction l generalizing m with
  | nil => exact absurd h (by simp [firstMinimalRoute])
  | cons x r ih =>
    cases hr : firstMinimalRoute r with
    | none =>
      rw [firstMinimalRoute_cons_none hr] at h
      injection h with h
      subst h
      intro c hc
      rcases List.mem_cons.mp hc with rfl | hc2
      · exact le_refl _
      · rw [firstMinimalRoute_eq_none.mp hr] at hc2
        exact absurd hc2 (List.not_mem_nil c)
    | some m2 =>
      rw [firstMinimalRoute_cons_some hr] at h
      intro c hc
      by_cases hlt : m2.1 < x.1
      · rw [if_pos hlt] at h
        injection h with h
        subst h
        rcases List.mem_cons.mp hc with rfl | hc2
        · exact le_of_lt hlt
        · exact ih hr c hc2
      · rw [if_neg hlt] at h
        injection h with h
        subst h
        rcases List.mem_cons.mp hc with rfl | hc2
        · exact le_refl _
        · exact le_trans (not_lt.mp hlt) (ih hr c hc2)

/-- The astra selection loop, started from an accumulator whose cost is above
the sentinel -1, ends at the first minimal candidate when that candidate
beats the accumulator, and at the accumulator otherwise. -/
theorem bestRouteFoldAstra_go (l : List (ℚ × PyStr)) :
    ∀ acc m : ℚ × PyStr, -1 < acc.1 → (∀ c ∈ l, (-1 : ℚ) < c.1) →
      firstMinimalRoute l = some m →
      l.foldl (fun acc node => if acc.1 = -1 ∨ node.1 < acc.1 then node else acc) acc =
        if m.1 < acc.1 then m else acc := by
  induction l with
  | nil =>
    intro acc m _ _ h
    exact absurd h (by simp [firstMinimalRoute])
  | cons x r ih =>
    intro acc m hacc hall h
    have hx : (-1 : ℚ) < x.1 := hall x (List.mem_cons_self x r)
    have hstep : (if acc.1 = -1 ∨ x.1 < acc.1 then x else acc) =
        (if x.1 < acc.1 then x else acc) := by
      by_cases hlt : x.1 < acc.1
      · rw [if_pos (Or.inr hlt), if_pos hlt]
      · rw [if_neg ?_, if_neg hlt]
        rintro (h1 | h2)
        · exact absurd h1 (ne_of_gt hacc)
        · exact hlt h2
    simp only [List.foldl_cons]
    rw [hstep]
    cases hr : firstMinimalRoute r with
    | none =>
      rw [firstMinimalRoute_cons_none hr] at h
      injection h with h
      subst h
      rw [firstMinimalRoute_eq_none.mp hr]
      rfl
    | some m2 =>
      rw [firstMinimalRoute_cons_some hr] at h
      have htail : ∀ c ∈ r, (-1 : ℚ) < c.1 :=
        fun c hc => hall c (List.mem_cons_of_mem x hc)
      by_cases hlt : x.1 < acc.1
      · rw [if_pos hlt, ih x m2 hx htail hr]
        by_cases hmx : m2.1 < x.1
        · rw [if_pos hmx] at h
          injection h with h
          subst h
          rw [if_pos hmx, if_pos (lt_trans hmx hlt)]
        · rw [if_neg hmx] at h
          injection h with h
          subst h
          rw [if_neg hmx, if_pos hlt]
      · rw [if_neg hlt, ih acc m2 hacc htail hr]
        by_cases hmx : m2.1 < x.1
        · rw [if_pos hmx] at h
          injection h with h
          subst h
          rfl
        · rw [if_neg hmx] at h
          injection h with h
          subst h
          rw [if_neg hlt, if_neg
            (fun hma => absurd (lt_of_le_of_lt (le_trans (not_lt.mp hlt)
              (not_lt.mp hmx)) hma) (lt_irrefl _))]

/-- The astra selection loop computes the first minimal candidate. -/
theorem bestRouteFoldAstra_firstMinimal (l : List (ℚ × PyStr)) (hl : l ≠ [])
    (hall : ∀ c ∈ l, (-1 : ℚ) < c.1) :
    ∃ m, firstMinimalRoute l = some m ∧ bestRouteFoldAstra l = m := by
  match l, hl with
  | x :: r, _ =>
    have hx : (-1 : ℚ) < x.1 := hall x (List.mem_cons_self x r)
    have htail : ∀ c ∈ r, (-1 : ℚ) < c.1 :=
      fun c hc => hall c (List.mem_cons_of_mem x hc)
    have hfirst : bestRouteFoldAstra (x :: r) =
        r.foldl (fun acc node => if acc.1 = -1 ∨ node.1 < acc.1 then node else acc) x := by
      simp [bestRouteFoldAstra, List.foldl_cons]
    cases hr : firstMinimalRoute r with
    | none =>
      refine ⟨x, firstMinimalRoute_cons_none hr, ?_⟩
      rw [hfirst, firstMinimalRoute_eq_none.mp hr]
      rfl
    | some m2 =>
      by_cases hmx : m2.1 < x.1
      · refine ⟨m2, ?_, ?_⟩
        · rw [firstMinimalRoute_cons_some hr, if_pos hmx]
        · rw [hfirst, bestRouteFoldAstra_go r x m2 hx htail hr, if_pos hmx]
      · refine ⟨x, ?_, ?_⟩
        · rw [firstMinimalRoute_cons_some hr, if_neg hmx]
        · rw [hfirst, bestRouteFoldAstra_go r x m2 hx htail hr, if_neg hmx]

/-- The src selection loop, started from an accumulator with a non-empty
edges attribute, behaves identically. -/
theorem bestRouteFoldSrc_go (l : List (ℚ × PyStr)) :
    ∀ acc m : ℚ × PyStr, acc.2 ≠ [] → (∀ c ∈ l, c.2 ≠ []) →
      firstMinimalRoute l = some m →
      l.foldl (fun acc node => if acc.2 = [] ∨ node.1 < acc.1 then node else acc) acc =
        if m.1 < acc.1 then m else acc := by
  induction l with
  | nil =>
    intro acc m _ _ h
    exact absurd h (by simp [firstMinimalRoute])
  | cons x r ih =>
    intro acc m hacc hall h
    have hx : x.2 ≠ [] := hall x (List.mem_cons_self x r)
    have hstep : (if acc.2 = [] ∨ x.1 < acc.1 then x else acc) =
        (if x.1 < acc.1 then x else acc) := by
      by_cases hlt : x.1 < acc.1
      · rw [if_pos (Or.inr hlt), if_pos hlt]
      · rw [if_neg ?_, if_neg hlt]
        rintro (h1 | h2)
        · exact hacc h1
        · exact hlt h2
    simp only [List.foldl_cons]
    rw [hstep]
    cases hr : firstMinimalRoute r with
    | none =>
      rw [firstMinimalRoute_cons_none hr] at h
      injection h with h
      subst h
      rw [firstMinimalRoute_eq_none.mp hr]
      rfl
    | some m2 =>
      rw [firstMinimalRoute_cons_some hr] at h
      have htail : ∀ c ∈ r, c.2 ≠ [] :=
        fun c hc => hall c (List.mem_cons_of_mem x hc)
      by_cases hlt : x.1 < acc.1
      · rw [if_pos hlt, ih x m2 hx htail hr]
        by_cases hmx : m2.1 < x.1
        · rw [if_pos hmx] at h
          injection h with h
          subst h
          rw [if_pos hmx, if_pos (lt_trans hmx hlt)]
        · rw [if_neg hmx] at h
          injection h with h
          subst h
          rw [if_neg hmx, if_pos hlt]
      · rw [if_neg hlt, ih acc m2 hacc htail hr]
        by_cases hmx : m2.1 < x.1
        · rw [if_pos hmx] at h
          injection h with h
          subst h
          rfl
        · rw [if_neg hmx] at h
          injection h with h
          subst h
          rw [if_neg hlt, if_neg
            (fun hma => absurd (lt_of_le_of_lt (le_trans (not_lt.mp hlt)
              (not_lt.mp hmx)) hma) (lt_irrefl _))]

/-- The src selection loop computes the first minimal candidate. -/
theorem bestRouteFoldSrc_firstMinimal (l : List (ℚ × PyStr)) (hl : l ≠ [])
    (hall : ∀ c ∈ l, c.2 ≠ []) :
    ∃ m, firstMinimalRoute l = some m ∧ bestRouteFoldSrc l = m := by
  match l, hl with
  | x :: r, _ =>
    have hx : x.2 ≠ [] := hall x (List.mem_cons_self x r)
    have htail : ∀ c ∈ r, c.2 ≠ [] :=
      fun c hc => hall c (List.mem_cons_of_mem x hc)
    have hfirst : bestRouteFoldSrc (x :: r) =
        r.foldl (fun acc node => if acc.2 = [] ∨ node.1 < acc.1 then node else acc) x := by
      simp [bestRouteFoldSrc, List.foldl_cons]
    cases hr : firstMinimalRoute r with
    | none =>
      refine ⟨x, firstMinimalRoute_cons_none hr, ?_⟩
      rw [hfirst, firstMinimalRoute_eq_none.mp hr]
      rfl
    | some m2 =>
      by_cases hmx : m2.1 < x.1
      · refine ⟨m2, ?_, ?_⟩
        · rw [firstMinimalRoute_cons_some hr, if_pos hmx]
        · rw [hfirst, bestRouteFoldSrc_go r x m2 hx htail hr, if_pos hmx]
      · refine ⟨x, ?_, ?_⟩
        · rw [firstMinimalRoute_cons_some hr, if_neg hmx]
        · rw [hfirst, bestRouteFoldSrc_go r x m2 hx htail hr, if_neg hmx]

/-- Claim C7 (amended): on an empty candidate list both variants return
`ROUTE_ERROR_CONNECTION` with no route; on a non-empty list, provided no
reported cost equals the astra sentinel -1 (respectively, for the src
variant, no candidate's edges attribute is the empty string), both variants
return code 0 with the split edge list of the first candidate of minimal
reported cost (`firstMinimalRoute`, whose recursion makes the first
occurrence win ties). -/
theorem C7_getBestRouteFromXml_spec (l : List (ℚ × PyStr)) :
    (getBestRouteFromXmlAstra [] = (ROUTE_ERROR_CONNECTION, none) ∧
     getBestRouteFromXmlSrc [] = (ROUTE_ERROR_CONNECTION, none)) ∧
    (l ≠ [] → (∀ c ∈ l, (-1 : ℚ) < c.1) →
      ∃ m, firstMinimalRoute l = some m ∧ m ∈ l ∧ (∀ c ∈ l, m.1 ≤ c.1) ∧
        getBestRouteFromXmlAstra l = (0, some (splitOnChar ' ' m.2))) ∧
    (l ≠ [] → (∀ c ∈ l, c.2 ≠ []) →
      ∃ m, firstMinimalRoute l = some m ∧ m ∈ l ∧ (∀ c ∈ l, m.1 ≤ c.1) ∧
        getBestRouteFromXmlSrc l = (0, some (splitOnChar ' ' m.2))) := by
  refine ⟨⟨rfl, rfl⟩, ?_, ?_⟩
  · intro hl hall
    obtain ⟨m, hm, hfold⟩ := bestRouteFoldAstra_firstMinimal l hl hall
    refine ⟨m, hm, firstMinimalRoute_mem hm, firstMinimalRoute_le hm, ?_⟩
    match l, hl with
    | x :: r, _ =>
      simp only [getBestRouteFromXmlAstra]
      rw [hfold]
  · intro hl hall
    obtain ⟨m, hm, hfold⟩ := bestRouteFoldSrc_firstMinimal l hl hall
    refine ⟨m, hm, firstMinimalRoute_mem hm, firstMinimalRoute_le hm, ?_⟩
    match l, hl with
    | x :: r, _ =>
      simp only [getBestRouteFromXmlSrc]
      rw [hfold]

/-- Witness for C7_getBestRouteFromXml_spec: two candidates of equal cost 3;
both variants pick the first and split its edges attribute. -/
theorem C7_getBestRouteFromXml_spec_witness :
    getBestRouteFromXmlAstra [(3, pys "a b"), (3, pys "c")] =
      (0, some [pys "a", pys "b"]) ∧
    getBestRouteFromXmlSrc [(3, pys "a b"), (3, pys "c")] =
      (0, some [pys "a", pys "b"]) := by
  constructor
  · obtain ⟨m, hm, -, -, hres⟩ :=
      (C7_getBestRouteFromXml_spec [(3, pys "a b"), (3, pys "c")]).2.1
        (by decide) (by norm_num)
    have hm2 : m = (3, pys "a b") := by
      have hv : firstMinimalRoute [(3, pys "a b"), (3, pys "c")] =
          some (3, pys "a b") := by decide
      rw [hv] at hm
      exact (Option.some_inj.mp hm).symm
    rw [hres, hm2]
    decide
  · obtain ⟨m, hm, -, -, hres⟩ :=
      (C7_getBestRouteFromXml_spec [(3, pys "a b"), (3, pys "c")]).2.2
        (by decide) (by decide)
    have hm2 : m = (3, pys "a b") := by
      have hv : firstMinimalRoute [(3, pys "a b"), (3, pys "c")] =
          some (3, pys "a b") := by decide
      rw [hv] at hm
      exact (Option.some_inj.mp hm).symm
    rw [hres, hm2]
    decide

/-- Unfolding equation for `splitOnChar` on a cons cell. -/
theorem splitOnChar_cons (sep c : Char) (s : PyStr) :
    splitOnChar sep (c :: s) =
      match splitOnChar sep s with
      | [] => [[]]
      | t :: ts => if c = sep then [] :: t :: ts else (c :: t) :: ts := rfl

/-- `splitOnChar` never returns an empty field list. -/
theorem splitOnChar_ne_nil (sep : Char) (s : PyStr) : splitOnChar sep s ≠ [] := by
  cases s with
  | nil => simp [splitOnChar]
  | cons c rest =>
    rw [splitOnChar_cons]
    cases splitOnChar sep rest with
    | nil => simp
    | cons t ts =>
      by_cases h : c = sep <;> simp [h]

/-- Splitting a separator-free string returns it as the only field. -/
theorem splitOnChar_no_sep (sep : Char) (x : PyStr) (h : sep ∉ x) :
    splitOnChar sep x = [x] := by
  induction x with
  | nil => rfl
  | cons c rest ih =>
    have hc : c ≠ sep := fun hc => h (hc ▸ List.mem_cons_self c rest)
    have hrest : sep ∉ rest := fun hr => h (List.mem_cons_of_mem c hr)
    rw [splitOnChar_cons, ih hrest]
    simp [hc]

/-- Splitting past one separator-free field peels it off. -/
theorem splitOnChar_append (sep : Char) (x t : PyStr) (h : sep ∉ x) :
    splitOnChar sep (x ++ sep :: t) = x :: splitOnChar sep t := by
  induction x with
  | nil =>
    rw [List.nil_append, splitOnChar_cons]
    cases hs : splitOnChar sep t with
    | nil => exact absurd hs (splitOnChar_ne_nil sep t)
    | cons a b => simp
  | cons c rest ih =>
    have hc : c ≠ sep := fun hc => h (hc ▸ List.mem_cons_self c rest)
    have hrest : sep ∉ rest := fun hr => h (List.mem_cons_of_mem c hr)
    rw [List.cons_append, splitOnChar_cons, ih hrest]
    simp [hc]

/-- Splitting inverts joining for a non-empty list of separator-free
fields: the Python `join`/`split` round trip at one line. -/
theorem splitOnChar_joinSep (sep : Char) (xs : List PyStr) (hne : xs ≠ [])
    (h : ∀ x ∈ xs, sep ∉ x) : splitOnChar sep (joinSep sep xs) = xs := by
  induction xs with
  | nil => exact absurd rfl hne
  | cons x rest ih =>
    cases rest with
    | nil => exact splitOnChar_no_sep sep x (h x (List.mem_cons_self x []))
    | cons y rest2 =>
      have hx : sep ∉ x := h x (List.mem_cons_self x (y :: rest2))
      have hrest : ∀ z ∈ y :: rest2, sep ∉ z :=
        fun z hz => h z (List.mem_cons_of_mem x hz)
      have hj : joinSep sep (x :: y :: rest2) =
          x ++ sep :: joinSep sep (y :: rest2) := rfl
      rw [hj, splitOnChar_append sep x (joinSep sep (y :: rest2)) hx,
        ih (by simp) hrest]

/-- Unfolding equation: importing a key line, two set lines, a remainder. -/
theorem importJunctionsDictionary_cons3 (k a b : PyStr) (t : List PyStr) :
    importJunctionsDictionary (k :: a :: b :: t) =
      if k = [] then []
      else (k, (splitOnChar ' ' a, splitOnChar ' ' b)) ::
        importJunctionsDictionary t := rfl

/-- The junctions dictionary round trip, for entries whose key and member
sets are non-empty and whose ids are separator-free. -/
theorem importExportJunctionsDictionary
    (d : List (PyStr × (List PyStr × List PyStr)))
    (h : ∀ p ∈ d, p.1 ≠ [] ∧ p.2.1 ≠ [] ∧ p.2.2 ≠ [] ∧
      (∀ x ∈ p.2.1, ' ' ∉ x) ∧ (∀ x ∈ p.2.2, ' ' ∉ x)) :
    importJunctionsDictionary (exportJunctionsDictionary d) = d := by
  induction d with
  | nil => rfl
  | cons p rest ih =>
    obtain ⟨hk, hp1, hp2, hs1, hs2⟩ := h p (List.mem_cons_self p rest)
    have hrest : ∀ q ∈ rest, q.1 ≠ [] ∧ q.2.1 ≠ [] ∧ q.2.2 ≠ [] ∧
        (∀ x ∈ q.2.1, ' ' ∉ x) ∧ (∀ x ∈ q.2.2, ' ' ∉ x) :=
      fun q hq => h q (List.mem_cons_of_mem p hq)
    have hexp : exportJunctionsDictionary (p :: rest) =
        p.1 :: joinSep ' ' p.2.1 :: joinSep ' ' p.2.2 ::
          exportJunctionsDictionary rest := rfl
    rw [hexp, importJunctionsDictionary_cons3, if_neg hk,
      splitOnChar_joinSep ' ' p.2.1 hp1 hs1,
      splitOnChar_joinSep ' ' p.2.2 hp2 hs2, ih hrest]

/-- A joined three-field line is never the empty string. -/
theorem joinSep_three_ne_nil (k f t : PyStr) : joinSep ' ' [k, f, t] ≠ [] := by
  have hj : joinSep ' ' [k, f, t] = k ++ ' ' :: joinSep ' ' [f, t] := rfl
  rw [hj]
  cases k <;> simp

/-- Unfolding equation for `importEdgesDictionary` on a cons cell. -/
theorem importEdgesDictionary_cons (line : PyStr) (t : List PyStr) :
    importEdgesDictionary (line :: t) =
      if line = [] then some []
      else
        match splitOnChar ' ' line with
        | k :: f :: tt :: _ =>
          (importEdgesDictionary t).map fun d => (k, (f, tt)) :: d
        | _ => none := rfl

/-- The edges dictionary round trip, for separator-free ids. -/
theorem importExportEdgesDictionary (d : List (PyStr × (PyStr × PyStr)))
    (h : ∀ p ∈ d, ' ' ∉ p.1 ∧ ' ' ∉ p.2.1 ∧ ' ' ∉ p.2.2) :
    importEdgesDictionary (exportEdgesDictionary d) = some d := by
  induction d with
  | nil => rfl
  | cons p rest ih =>
    obtain ⟨h1, h2, h3⟩ := h p (List.mem_cons_self p rest)
    have hrest : ∀ q ∈ rest, ' ' ∉ q.1 ∧ ' ' ∉ q.2.1 ∧ ' ' ∉ q.2.2 :=
      fun q hq => h q (List.mem_cons_of_mem p hq)
    have hexp : exportEdgesDictionary (p :: rest) =
        joinSep ' ' [p.1, p.2.1, p.2.2] :: exportEdgesDictionary rest := rfl
    have hsplit : splitOnChar ' ' (joinSep ' ' [p.1, p.2.1, p.2.2]) =
        [p.1, p.2.1, p.2.2] := by
      refine splitOnChar_joinSep ' ' [p.1, p.2.1, p.2.2] (by simp) ?_
      intro x hx
      simp only [List.mem_cons, List.not_mem_nil, or_false] at hx
      rcases hx with h4 | h4 | h4
      · exact h4 ▸ h1
      · exact h4 ▸ h2
      · exact h4 ▸ h3
    rw [hexp, importEdgesDictionary_cons,
      if_neg (joinSep_three_ne_nil p.1 p.2.1 p.2.2), hsplit]
    simp [ih hrest]

/-- Unfolding equation for the alternating-field parser. -/
theorem importGraphPairs_cons2 {α : Type} (pa : PyStr → α) (s c : PyStr)
    (rest : List PyStr) :
    importGraphPairs pa (s :: c :: rest) =
      (importGraphPairs pa rest).map fun d => (s, pa c) :: d := rfl

/-- Parsing the alternating successor/cost fields inverts producing them,
when parsing inverts printing on every stored cost. -/
theorem importGraphPairs_flat {α : Type} (pr : α → PyStr) (pa : PyStr → α)
    (succs : List (PyStr × α)) (h : ∀ q ∈ succs, pa (pr q.2) = q.2) :
    importGraphPairs pa (succs.flatMap fun q => [q.1, pr q.2]) = some succs := by
  induction succs with
  | nil => rfl
  | cons q rest ih =>
    have hq := h q (List.mem_cons_self q rest)
    have hrest : ∀ z ∈ rest, pa (pr z.2) = z.2 :=
      fun z hz => h z (List.mem_cons_of_mem q hz)
    have hflat : ((q :: rest).flatMap fun z => [z.1, pr z.2]) =
        q.1 :: pr q.2 :: rest.flatMap fun z => [z.1, pr z.2] := rfl
    rw [hflat, importGraphPairs_cons2, ih hrest]
    simp [hq]

/-- Unfolding equation for `importGraph` on a cons cell. -/
theorem importGraph_cons {α : Type} (pa : PyStr → α) (line : PyStr)
    (t : List PyStr) :
    importGraph pa (line :: t) =
      if line = [] then some []
      else
        match splitOnChar ' ' line with
        | [] => none
        | k :: fields =>
          (importGraphPairs pa fields).bind fun succs =>
            (importGraph pa t).bind fun d => some ((k, succs) :: d) := rfl

/-- The graph dictionary round trip, for non-empty separator-free keys,
separator-free successor ids and printed costs, and a parse function
inverting the print function on every stored cost. -/
theorem importExportGraph {α : Type} (pr : α → PyStr) (pa : PyStr → α)
    (g : List (PyStr × List (PyStr × α)))
    (h : ∀ p ∈ g, p.1 ≠ [] ∧ ' ' ∉ p.1 ∧
      ∀ q ∈ p.2, ' ' ∉ q.1 ∧ ' ' ∉ pr q.2 ∧ pa (pr q.2) = q.2) :
    importGraph pa (exportGraph pr g) = some g := by
  induction g with
  | nil => rfl
  | cons p rest ih =>
    obtain ⟨hk, hks, hsuccs⟩ := h p (List.mem_cons_self p rest)
    have hrest : ∀ q ∈ rest, q.1 ≠ [] ∧ ' ' ∉ q.1 ∧
        ∀ z ∈ q.2, ' ' ∉ z.1 ∧ ' ' ∉ pr z.2 ∧ pa (pr z.2) = z.2 :=
      fun q hq => h q (List.mem_cons_of_mem p hq)
    have hexp : exportGraph pr (p :: rest) =
        joinSep ' ' (p.1 :: p.2.flatMap fun q => [q.1, pr q.2]) ::
          exportGraph pr rest := rfl
    have hsplit :
        splitOnChar ' ' (joinSep ' ' (p.1 :: p.2.flatMap fun q => [q.1, pr q.2])) =
          p.1 :: p.2.flatMap fun q => [q.1, pr q.2] := by
      refine splitOnChar_joinSep ' ' _ (by simp) ?_
      intro x hx
      rcases List.mem_cons.mp hx with rfl | hx2
      · exact hks
      · obtain ⟨q, hq, hxq⟩ := List.mem_flatMap.mp hx2
        simp only [List.mem_cons, List.not_mem_nil, or_false] at hxq
        rcases hxq with h4 | h4
        · exact h4 ▸ (hsuccs q hq).1
        · exact h4 ▸ (hsuccs q hq).2.1
    have hline : joinSep ' ' (p.1 :: p.2.flatMap fun q => [q.1, pr q.2]) ≠ [] := by
      intro hcontra
      have h5 := congrArg (splitOnChar ' ') hcontra
      rw [hsplit] at h5
      have h6 : splitOnChar ' ' ([] : PyStr) = [[]] := rfl
      rw [h6] at h5
      injection h5 with h7 _
      exact hk h7
    rw [hexp, importGraph_cons, if_neg hline, hsplit]
    simp only []
    rw [importGraphPairs_flat pr pa p.2 (fun q hq => (hsuccs q hq).2.2), ih hrest]
    rfl

/-- Claim C1, counterexample: a junction whose predecessor edge set is empty
does not survive the round trip.  Exporting writes an empty line for the
empty set; importing splits that line into `[""]` and builds the singleton
set containing the empty string, so the imported dictionary differs from the
original both as a list and under Python dictionary/set equality. -/
theorem C1_counterexample :
    importJunctionsDictionary
        (exportJunctionsDictionary [(pys "J", ([], [pys "e1"]))]) =
      [(pys "J", ([[]], [pys "e1"]))] ∧
    pyJunctionsDictEq
      (importJunctionsDictionary
        (exportJunctionsDictionary [(pys "J", ([], [pys "e1"]))]))
      [(pys "J", ([], [pys "e1"]))] = false := by
  constructor
  · rfl
  · rfl

/-- Claim C1 (amended): the three persistence round trips hold for every
network model whose ids are non-empty and separator-free, whose junction
entries have a non-empty predecessor set and a non-empty successor set, and
whose traversal-cost print/parse pair is inverse on the stored costs
(`float(str(x)) == x`); junction entries with an empty predecessor or
successor edge set are excluded, as the counterexample shows they import as
the set containing the empty string. -/
theorem C1_roundTrip {α : Type} (pr : α → PyStr) (pa : PyStr → α)
    (junctionsDict : List (PyStr × (List PyStr × List PyStr)))
    (edgesDict : List (PyStr × (PyStr × PyStr)))
    (graph : List (PyStr × List (PyStr × α)))
    (hj : ∀ p ∈ junctionsDict, p.1 ≠ [] ∧ p.2.1 ≠ [] ∧ p.2.2 ≠ [] ∧
      (∀ x ∈ p.2.1, ' ' ∉ x) ∧ (∀ x ∈ p.2.2, ' ' ∉ x))
    (he : ∀ p ∈ edgesDict, ' ' ∉ p.1 ∧ ' ' ∉ p.2.1 ∧ ' ' ∉ p.2.2)
    (hg : ∀ p ∈ graph, p.1 ≠ [] ∧ ' ' ∉ p.1 ∧
      ∀ q ∈ p.2, ' ' ∉ q.1 ∧ ' ' ∉ pr q.2 ∧ pa (pr q.2) = q.2) :
    importJunctionsDictionary (exportJunctionsDictionary junctionsDict) =
      junctionsDict ∧
    importEdgesDictionary (exportEdgesDictionary edgesDict) = some edgesDict ∧
    importGraph pa (exportGraph pr graph) = some graph :=
  ⟨importExportJunctionsDictionary junctionsDict hj,
    importExportEdgesDictionary edgesDict he,
    importExportGraph pr pa graph hg⟩

/-- Witness for C1_roundTrip on a small concrete model (costs kept as their
serialized strings, so print and parse are the identity). -/
theorem C1_roundTrip_witness :
    importJunctionsDictionary (exportJunctionsDictionary
        [(pys "J1", ([pys "e1"], [pys "e2", pys "-e1"]))]) =
      [(pys "J1", ([pys "e1"], [pys "e2", pys "-e1"]))] ∧
    importEdgesDictionary (exportEdgesDictionary
        [(pys "e1", (pys "J0", pys "J1"))]) =
      some [(pys "e1", (pys "J0", pys "J1"))] ∧
    importGraph (id : PyStr → PyStr) (exportGraph id
        [(pys "e1", [(pys "e2", pys "7.5")]), (pys "e3", [])]) =
      some [(pys "e1", [(pys "e2", pys "7.5")]), (pys "e3", [])] :=
  C1_roundTrip id id
    [(pys "J1", ([pys "e1"], [pys "e2", pys "-e1"]))]
    [(pys "e1", (pys "J0", pys "J1"))]
    [(pys "e1", [(pys "e2", pys "7.5")]), (pys "e3", [])]
    (by decide) (by decide) (by decide)

/-- Deleting a key from an association list removes its binding. -/
theorem lookup_dictErase (d : List (PyStr × α)) (k : PyStr) :
    List.lookup k (dictErase d k) = none := by
  induction d with
  | nil => rfl
  | cons p rest ih =>
    by_cases h : p.1 = k
    · simp only [dictErase, List.filter_cons]
      rw [if_neg (by simp [h])]
      exact ih
    · simp only [dictErase, List.filter_cons]
      rw [if_pos (by simp [h])]
      rw [List.lookup_cons]
      have hbeq : (k == p.1) = false := by
        simp only [beq_eq_false_iff_ne, ne_eq]
        exact fun hk => h hk.symm
      rw [hbeq]
      exact ih

/-- The green anticipation step count matches the source's ceiling formula
`int(ceil(GREEN_LENGTH_ANTICIPATION / PRIORITY_VEHICLE_KM_PER_SEC_SPEED /
SUMO_SIMULATION_STEP_TIME))`. -/
theorem GREEN_STEPS_ANTICIPATION_eq :
    GREEN_STEPS_ANTICIPATION =
      ⌈GREEN_LENGTH_ANTICIPATION / PRIORITY_VEHICLE_KM_PER_SEC_SPEED /
        SUMO_SIMULATION_STEP_TIME⌉ := by
  rw [GREEN_STEPS_ANTICIPATION, GREEN_LENGTH_ANTICIPATION,
    PRIORITY_VEHICLE_KM_PER_SEC_SPEED, SUMO_SIMULATION_STEP_TIME]
  norm_num
  symm
  rw [Int.ceil_eq_iff]
  constructor <;> norm_num

/-- The yellow anticipation step count matches the source's ceiling
formula. -/
theorem YELLOW_STEPS_ANTICIPATION_eq :
    YELLOW_STEPS_ANTICIPATION =
      ⌈YELLOW_LENGTH_ANTICIPATION / PRIORITY_VEHICLE_KM_PER_SEC_SPEED /
        SUMO_SIMULATION_STEP_TIME⌉ := by
  rw [YELLOW_STEPS_ANTICIPATION, YELLOW_LENGTH_ANTICIPATION,
    PRIORITY_VEHICLE_KM_PER_SEC_SPEED, SUMO_SIMULATION_STEP_TIME]
  norm_num
  symm
  rw [Int.ceil_eq_iff]
  constructor <;> norm_num

/-- Claim C5, counterexample: a signal in PREPARING (present in
`yellowTllDict`) receives SET_GREEN while its current state is already green
for the hidden lane with enough remaining time: `changeState` performs no
phase mutation and leaves the saved entry in `yellowTllDict`, while the claim
requires the saved phase list to be installed and the entry removed on every
SET_GREEN call for a PREPARING signal. -/
theorem C5_counterexample :
    changeState
      ⟨[pys "lIn_0"], (fun l => if l = pys "lIn_0" then [pys "lOut_0"] else []),
        [(pys "G", 5000)], 0, 0, 10000⟩
      (pys "tl1") (pys "lIn_0") (pys "lOut_0") SET_GREEN
      [(pys "tl1", [(pys "r", 3000)])] =
      some ([(pys "tl1", [(pys "r", 3000)])], TllAction.noAction) ∧
    List.lookup (pys "tl1") [(pys "tl1", [(pys "r", 3000)])] =
      some [(pys "r", 3000)] := by
  constructor
  · norm_num [changeState, changeStateRest, removeDoubles, removeDoublesAux,
      getHiddenLaneIndex, SET_GREEN, SET_YELLOW, GREEN, GREEN_PRIO, YELLOW,
      SUMO_SIMULATION_STEP_TIME, GREEN_STEPS_ANTICIPATION, pys]
  · rfl

/-- Claim C5 (amended): when `changeState` is called with SET_GREEN for a
signal in PREPARING and the call reaches the override branch — the hidden
lane index is within the current state string, the signal is not already
green for that lane with enough remaining time, a green phase exists, and
the saved phase list passes the minimum-duration check — the complete phase
definition is set, in one TraCI mutation, to exactly the phase list saved
when PREPARING was entered (the temporary orange phase never appears in it),
with the current phase index set to the green phase serving the hidden lane,
and the signal's entry is removed from `yellowTllDict` in the same
transition, so the signal exits PREPARING directly into OVERRIDDEN without
passing through NORMAL. -/
theorem C5_changeState_restores (env : TraciTllState)
    (tllId inLane outLane : PyStr)
    (yellowTllDict : List (PyStr × List TllPhase)) (saved : List TllPhase)
    (h : ℕ) (cp : TllPhase) (c : Char) (gi : ℕ) (sph : TllPhase)
    (hh : getHiddenLaneIndex env.links (removeDoubles env.controlledLanes)
      inLane outLane 0 = h)
    (hsaved : List.lookup tllId yellowTllDict = some saved)
    (hph : env.program[env.phaseIndex]? = some cp)
    (hlen : cp.1.length ≠ h)
    (hc : cp.1[h]? = some c)
    (hng : ¬((c = GREEN ∨ c = GREEN_PRIO) ∧
      (env.nextSwitch - env.currentTime) / 1000 / SUMO_SIMULATION_STEP_TIME -
        (GREEN_STEPS_ANTICIPATION : ℚ) > 0))
    (hgi : getGreenPhaseIndex env.program h = some gi)
    (hdur : ∀ p ∈ saved, TLL_MIN_PHASE_DURATION ≤ p.2)
    (hgir : saved[gi]? = some sph) :
    changeState env tllId inLane outLane SET_GREEN yellowTllDict =
      some (dictErase yellowTllDict tllId,
        TllAction.setProgram saved gi (sph.2 / 1000)) ∧
    List.lookup tllId (dictErase yellowTllDict tllId) = none := by
  refine ⟨?_, lookup_dictErase yellowTllDict tllId⟩
  have hfind : saved.find? (fun p => decide (p.2 < TLL_MIN_PHASE_DURATION)) = none := by
    rw [List.find?_eq_none]
    intro x hx
    simp only [decide_eq_true_eq, not_lt]
    exact hdur x hx
  have hset : setCompletePhasesDefinition saved gi =
      some (ACK_OK, TllAction.setProgram saved gi (sph.2 / 1000)) := by
    rw [setCompletePhasesDefinition, hfind]
    simp only [hgir]
  have hrestore : restorePreviousPhaseDefinition yellowTllDict tllId gi =
      some (dictErase yellowTllDict tllId,
        TllAction.setProgram saved gi (sph.2 / 1000)) := by
    rw [restorePreviousPhaseDefinition]
    simp only [hsaved, hset, Option.map_some']
  have hrest : changeStateRest tllId SET_GREEN yellowTllDict true
      h env.phaseIndex
      ((env.nextSwitch - env.currentTime) / 1000 / SUMO_SIMULATION_STEP_TIME)
      env.program cp.1 =
      some (dictErase yellowTllDict tllId,
        TllAction.setProgram saved gi (sph.2 / 1000)) := by
    rw [changeStateRest, if_neg (by norm_num [SET_GREEN, SET_YELLOW]),
      if_pos rfl]
    simp only [hc]
    rw [if_pos hng]
    simp only [hgi]
    rw [if_pos trivial]
    exact hrestore
  simp only [changeState, hsaved, Option.isSome_some, hh, hph]
  rw [if_neg (by norm_num [SET_GREEN, SET_YELLOW])]
  rw [if_neg hlen]
  rw [if_neg (by simp)]
  exact hrest

/-- Witness for C5_changeState_restores: a PREPARING signal whose current
(orange) state is red for the hidden lane; SET_GREEN installs the saved
two-phase list at its green phase index 1 and clears the PREPARING entry. -/
theorem C5_changeState_restores_witness :
    changeState
      ⟨[pys "lIn_0"], (fun l => if l = pys "lIn_0" then [pys "lOut_0"] else []),
        [(pys "r", 5000), (pys "G", 5000)], 0, 0, 0⟩
      (pys "tl1") (pys "lIn_0") (pys "lOut_0") SET_GREEN
      [(pys "tl1", [(pys "r", 3000), (pys "g", 3000)])] =
      some ([], TllAction.setProgram [(pys "r", 3000), (pys "g", 3000)] 1 3) := by
  have hmain := C5_changeState_restores
    ⟨[pys "lIn_0"], (fun l => if l = pys "lIn_0" then [pys "lOut_0"] else []),
      [(pys "r", 5000), (pys "G", 5000)], 0, 0, 0⟩
    (pys "tl1") (pys "lIn_0") (pys "lOut_0")
    [(pys "tl1", [(pys "r", 3000), (pys "g", 3000)])]
    [(pys "r", 3000), (pys "g", 3000)]
    0 (pys "r", 5000) 'r' 1 (pys "g", 3000)
    (by decide) (by decide) (by decide) (by decide) (by decide)
    (by intro hco; exact absurd hco.1 (by decide)) (by decide) (by decide) (by decide)
  rw [hmain.1]
  decide

/-- A non-empty edge id always has an opposite. -/
theorem getOppositeEdge_isSome (e : PyStr) (he : e ≠ []) :
    ∃ o, getOppositeEdge e = some o := by
  cases e with
  | nil => exact absurd rfl he
  | cons c rest =>
    by_cases hc : c = '-'
    · exact ⟨rest, by simp [getOppositeEdge, hc]⟩
    · exact ⟨'-' :: c :: rest, by simp [getOppositeEdge, hc]⟩

/-- The boolean chain predicate coincides with `List.Chain'`. -/
theorem chainB_iff (R : PyStr → PyStr → Bool) (l : List PyStr) :
    chainB R l = true ↔ List.Chain' (fun a b => R a b = true) l := by
  induction l with
  | nil => simp [chainB]
  | cons a rest ih =>
    cases rest with
    | nil => simp [chainB]
    | cons b rest2 =>
      rw [List.chain'_cons]
      simp only [chainB, Bool.and_eq_true]
      rw [ih]

/-- Unpacking a sound-leg check. -/
theorem legOkB_unpack {gpairs : List (PyStr × PyStr)} {s d : PyStr}
    {r : List PyStr} (h : legOkB gpairs s d r = true) :
    r ≠ [] ∧ r.head? = some s ∧ r.getLast? = some d ∧
      List.Chain' (fun a b => graphSuccB gpairs a b = true) r ∧
      ∀ e ∈ r, e ≠ [] := by
  simp only [legOkB, Bool.and_eq_true, beq_iff_eq, List.all_eq_true] at h
  obtain ⟨⟨⟨⟨h1, h2⟩, h3⟩, h4⟩, h5⟩ := h
  refine ⟨by simpa using h1, h2, h3, (chainB_iff _ r).mp h4, ?_⟩
  intro e he
  have := h5 e he
  simpa using this

/-- Unpacking one step of the calls check. -/
theorem callsOkB_cons {gpairs : List (PyStr × PyStr)}
    {sp : PyStr → PyStr → Option (List PyStr)} {src d : PyStr}
    {ds : List PyStr} (h : callsOkB gpairs sp src (d :: ds) = true) :
    ∃ r, sp src d = some r ∧ legOkB gpairs src d r = true ∧
      callsOkB gpairs sp (r.getLast?.getD src) ds = true := by
  rw [callsOkB] at h
  cases hsp : sp src d with
  | none => rw [hsp] at h; exact absurd h (by simp)
  | some r =>
    rw [hsp] at h
    simp only [Bool.and_eq_true] at h
    exact ⟨r, rfl, h.1, h.2⟩

/-- `legsOf` on a cons of destinations, when the search succeeds. -/
theorem legsOf_cons {sp : PyStr → PyStr → Option (List PyStr)} {src d : PyStr}
    (ds : List PyStr) {r : List PyStr} (hsp : sp src d = some r) :
    legsOf sp src (d :: ds) = r :: legsOf sp (r.getLast?.getD src) ds := by
  rw [legsOf, hsp]

/-- Under the calls check, there is one leg per destination. -/
theorem legsOf_length {gpairs : List (PyStr × PyStr)}
    {sp : PyStr → PyStr → Option (List PyStr)} :
    ∀ {dests : List PyStr} {src : PyStr},
      callsOkB gpairs sp src dests = true →
      (legsOf sp src dests).length = dests.length := by
  intro dests
  induction dests with
  | nil => intro src _; rfl
  | cons d ds ih =>
    intro src h
    obtain ⟨r, hsp, _, hrec⟩ := callsOkB_cons h
    rw [legsOf_cons ds hsp]
    simp only [List.length_cons]
    rw [ih hrec]

/-- Under the calls check, every leg is non-empty with non-empty edge ids. -/
theorem legsOf_nonempty {gpairs : List (PyStr × PyStr)}
    {sp : PyStr → PyStr → Option (List PyStr)} :
    ∀ {dests : List PyStr} {src : PyStr},
      callsOkB gpairs sp src dests = true →
      ∀ l ∈ legsOf sp src dests, l ≠ [] ∧ ∀ e ∈ l, e ≠ [] := by
  intro dests
  induction dests with
  | nil => intro src _ l hl; exact absurd hl (List.not_mem_nil l)
  | cons d ds ih =>
    intro src h l hl
    obtain ⟨r, hsp, hleg, hrec⟩ := callsOkB_cons h
    obtain ⟨hne, _, _, _, hids⟩ := legOkB_unpack hleg
    rw [legsOf_cons ds hsp] at hl
    rcases List.mem_cons.mp hl with rfl | hl2
    · exact ⟨hne, hids⟩
    · exact ih hrec l hl2

/-- The first-iteration trim is a no-op when the leg does not begin with an
anti-parallel pair and the source is not a junction. -/
theorem firstLegTrim_noTrim (r : List PyStr) (hids : ∀ e ∈ r, e ≠ [])
    (hno : firstLegNoTrimB [r] = true) : firstLegTrim false r = some r := by
  cases r with
  | nil => rfl
  | cons e0 rest =>
    cases rest with
    | nil => rfl
    | cons e1 rest2 =>
      obtain ⟨o, ho⟩ :=
        getOppositeEdge_isSome e0 (hids e0 (List.mem_cons_self e0 (e1 :: rest2)))
      have hne : e1 ≠ o := by
        have hno2 := hno
        simp only [firstLegNoTrimB, ho] at hno2
        simpa using hno2
      rw [firstLegTrim]
      simp only [Bool.false_and, Bool.false_eq_true, if_false, ho]
      rw [if_neg hne]

/-- The final trim of the loop computes: drop the last edge exactly when the
last two edges are mutual opposites (total on routes of non-empty ids). -/
theorem routeFinalTrim_eq (r : List PyStr) (hids : ∀ e ∈ r, e ≠ []) :
    routeFinalTrim r =
      some (if lastPairOppositeB r = true then r.dropLast else r) := by
  by_cases hlen : 1 < r.length
  · cases hr : r.getLast? with
    | none =>
      rw [List.getLast?_eq_none_iff] at hr
      subst hr
      simp at hlen
    | some lastE =>
      have hmem : lastE ∈ r := by
        obtain ⟨h9, he⟩ := List.mem_getLast?_eq_getLast (by rw [hr]; rfl)
        exact he ▸ List.getLast_mem h9
      obtain ⟨o, ho⟩ := getOppositeEdge_isSome lastE (hids lastE hmem)
      rw [routeFinalTrim, if_pos hlen]
      simp only [hr, ho]
      by_cases heq : r[r.length - 2]? = some o
      · rw [if_pos heq]
        have hlp : lastPairOppositeB r = true := by
          simp [lastPairOppositeB, hlen, hr, ho, heq]
        rw [if_pos hlp]
      · rw [if_neg heq]
        have hlp : lastPairOppositeB r = false := by
          simp only [lastPairOppositeB, hr, Option.some_bind, ho,
            Bool.and_eq_false_iff]
          right
          simpa using heq
        rw [hlp]
        simp
  · have hlp : lastPairOppositeB r = false := by
      simp [lastPairOppositeB, hlen]
    rw [routeFinalTrim, if_neg hlen, hlp]
    simp

/-- The length of the flattened tails of non-empty legs. -/
theorem flatten_tails_length (ls : List (List PyStr))
    (h : ∀ l ∈ ls, l ≠ []) :
    ((ls.map List.tail).flatten).length + ls.length = (ls.map List.length).sum := by
  induction ls with
  | nil => rfl
  | cons t ts ih =>
    have ht : t ≠ [] := h t (List.mem_cons_self t ts)
    have hts : ∀ l ∈ ts, l ≠ [] := fun l hl => h l (List.mem_cons_of_mem t hl)
    simp only [List.map_cons, List.flatten_cons, List.length_append,
      List.length_cons, List.sum_cons]
    have htl : t.tail.length + 1 = t.length := by
      cases t with
      | nil => exact absurd rfl ht
      | cons a b => simp
    have hrec := ih hts
    omega

/-- The stitched route has the summed leg lengths minus one per boundary. -/
theorem stitchLegs_length (legs : List (List PyStr))
    (h : ∀ l ∈ legs, l ≠ []) :
    (stitchLegs legs).length + (legs.length - 1) = (legs.map List.length).sum := by
  cases legs with
  | nil => rfl
  | cons l ls =>
    have hls : ∀ x ∈ ls, x ≠ [] := fun x hx => h x (List.mem_cons_of_mem l hx)
    have hflat := flatten_tails_length ls hls
    simp only [stitchLegs, List.length_append, List.map_cons, List.sum_cons,
      List.length_cons]
    omega

/-- The last edge of the route extended with a leg's tail is the leg's
destination. -/
theorem append_getLast?_of_leg (route t : List PyStr) (src d : PyStr)
    (hlast : route.getLast? = some src)
    (hrlast : (src :: t).getLast? = some d) :
    (route ++ t).getLast? = some d := by
  cases t with
  | nil =>
    have hd : d = src := by
      simp only [List.getLast?_singleton, Option.some_inj] at hrlast
      exact hrlast.symm
    subst hd
    simpa using hlast
  | cons a t2 =>
    rw [List.getLast?_append_of_ne_nil route (by simp)]
    rw [List.getLast?_cons_cons] at hrlast
    exact hrlast

/-- Appending the tails of successive sound legs preserves the graph chain:
each leg starts at the accumulated route's last edge. -/
theorem stitch_chain_aux (gpairs : List (PyStr × PyStr))
    (sp : PyStr → PyStr → Option (List PyStr)) :
    ∀ (dests : List PyStr) (src : PyStr) (route : List PyStr),
      callsOkB gpairs sp src dests = true →
      List.Chain' (fun a b => graphSuccB gpairs a b = true) route →
      route.getLast? = some src →
      List.Chain' (fun a b => graphSuccB gpairs a b = true)
        (route ++ ((legsOf sp src dests).map List.tail).flatten) := by
  intro dests
  induction dests with
  | nil =>
    intro src route _ hchain _
    simpa [legsOf] using hchain
  | cons d ds ih =>
    intro src route hcalls hchain hlast
    obtain ⟨r, hsp, hleg, hrec⟩ := callsOkB_cons hcalls
    obtain ⟨hne, hhead, hrlast, hrchain, _⟩ := legOkB_unpack hleg
    cases r with
    | nil => exact absurd rfl hne
    | cons e t =>
      have he : e = src := by
        simp only [List.head?_cons, Option.some_inj] at hhead
        exact hhead
      subst he
      rw [legsOf_cons ds hsp]
      have hgetd : ((e :: t).getLast?).getD e = d := by
        rw [hrlast]
        rfl
      rw [hgetd] at hrec
      rw [hgetd]
      simp only [List.map_cons, List.tail_cons, List.flatten_cons]
      rw [← List.append_assoc]
      have hchain2 : List.Chain' (fun a b => graphSuccB gpairs a b = true)
          (route ++ t) := by
        rw [List.chain'_append]
        refine ⟨hchain, (List.chain'_cons'.mp hrchain).2, ?_⟩
        intro x hx y hy
        have hx2 : x = e := by
          rw [Option.mem_def, hlast] at hx
          exact (Option.some_inj.mp hx).symm
        subst hx2
        exact (List.chain'_cons'.mp hrchain).1 y hy
      exact ih d (route ++ t) hrec hchain2
        (append_getLast?_of_leg route t e d hlast hrlast)

/-- One non-first loop iteration with a non-junction destination and a
successful search: trim the leg's leading edge, extend the route, move the
source to the leg's last edge. -/
theorem dijkstraRouteLoop_cons_nonfirst (sp : PyStr → PyStr → Option (List PyStr))
    (jd : List (PyStr × (List PyStr × List PyStr))) (d : PyStr)
    (rest : List PyStr) (src : PyStr) (route : List PyStr) (sj : Bool)
    (r : List PyStr) (hd : isJunction d = some false) (hsp : sp src d = some r) :
    dijkstraRouteLoop sp jd (d :: rest) src route false sj =
      match r with
      | [] => none
      | _ :: t =>
        dijkstraRouteLoop sp jd rest
          (match t.getLast? with
           | some e => e
           | none => d)
          (route ++ t) false sj := by
  simp only [dijkstraRouteLoop, hd, hsp, Option.pure_def, Option.bind_eq_bind,
    Option.some_bind, Option.none_bind, Bool.false_eq_true, if_false,
    Bool.false_and, List.isEmpty_eq_true]
  cases r <;> rfl

/-- Restatement of the per-iteration equation with the search result
destructured and the next source written with `Option.getD`. -/
theorem dijkstraRouteLoop_cons_nonfirst2 (sp : PyStr → PyStr → Option (List PyStr))
    (jd : List (PyStr × (List PyStr × List PyStr))) (d : PyStr)
    (rest : List PyStr) (src : PyStr) (route : List PyStr) (sj : Bool)
    (e : PyStr) (t : List PyStr)
    (hd : isJunction d = some false) (hsp : sp src d = some (e :: t)) :
    dijkstraRouteLoop sp jd (d :: rest) src route false sj =
      dijkstraRouteLoop sp jd rest (t.getLast?.getD d) (route ++ t) false sj := by
  simp only [dijkstraRouteLoop, hd, hsp, Option.pure_def, Option.bind_eq_bind,
    Option.some_bind, Option.none_bind, Bool.false_eq_true, if_false,
    Bool.false_and, List.isEmpty_eq_true]
  cases hgl : t.getLast? <;> simp only [hgl, Option.getD_some, Option.getD_none]

/-- The non-first phase of the destination loop appends, for every
destination, the search result with its leading edge dropped, and applies
the final trim. -/
theorem dijkstraRouteLoop_nonfirst (gpairs : List (PyStr × PyStr))
    (sp : PyStr → PyStr → Option (List PyStr))
    (jd : List (PyStr × (List PyStr × List PyStr))) (sj : Bool) :
    ∀ (dests : List PyStr) (src : PyStr) (route : List PyStr),
      (∀ x ∈ dests, isJunction x = some false) →
      callsOkB gpairs sp src dests = true →
      route.getLast? = some src →
      dijkstraRouteLoop sp jd dests src route false sj =
        (routeFinalTrim
          (route ++ ((legsOf sp src dests).map List.tail).flatten)).map
          (fun r => (0, some r)) := by
  intro dests
  induction dests with
  | nil =>
    intro src route _ _ _
    simp [dijkstraRouteLoop, legsOf]
  | cons d ds ih =>
    intro src route hdests hcalls hlast
    obtain ⟨r, hsp, hleg, hrec⟩ := callsOkB_cons hcalls
    obtain ⟨hne, hhead, hrlast, _, _⟩ := legOkB_unpack hleg
    have hd : isJunction d = some false := hdests d (List.mem_cons_self d ds)
    have hds : ∀ x ∈ ds, isJunction x = some false :=
      fun x hx => hdests x (List.mem_cons_of_mem d hx)
    cases r with
    | nil => exact absurd rfl hne
    | cons e t =>
      rw [dijkstraRouteLoop_cons_nonfirst2 sp jd d ds src route sj e t hd hsp]
      have he : e = src := by
        simp only [List.head?_cons, Option.some_inj] at hhead
        exact hhead
      subst he
      have hgetd : ((e :: t).getLast?).getD e = d := by
        rw [hrlast]
        rfl
      rw [hgetd] at hrec
      have hsrc2 : t.getLast?.getD d = d := by
        cases ht : t.getLast? with
        | none => rfl
        | some x =>
          have hxt : (e :: t).getLast? = some x := by
            cases t with
            | nil => simp at ht
            | cons a t2 =>
              rw [List.getLast?_cons_cons]
              exact ht
          rw [hrlast] at hxt
          injection hxt with hxd
          exact hxd.symm
      rw [hsrc2]
      rw [ih d (route ++ t) hds hrec
        (append_getLast?_of_leg route t e d hlast hrlast)]
      have hlegs : legsOf sp e (d :: ds) = (e :: t) :: legsOf sp d ds := by
        rw [legsOf_cons ds hsp, hgetd]
      rw [hlegs]
      simp only [List.map_cons, List.tail_cons, List.flatten_cons,
        List.append_assoc]

/-- The first loop iteration with a non-junction source and destination:
apply the first-leg trim, extend the empty route, recurse non-first. -/
theorem dijkstraRouteLoop_cons_first (sp : PyStr → PyStr → Option (List PyStr))
    (jd : List (PyStr × (List PyStr × List PyStr))) (d : PyStr)
    (rest : List PyStr) (src : PyStr) (route : List PyStr) (r : List PyStr)
    (hd : isJunction d = some false) (hsp : sp src d = some r) :
    dijkstraRouteLoop sp jd (d :: rest) src route true false =
      (firstLegTrim false r).bind fun r1 =>
        dijkstraRouteLoop sp jd rest (r1.getLast?.getD d)
          (route ++ r1) false false := by
  simp only [dijkstraRouteLoop, hd, hsp, Option.pure_def, Option.bind_eq_bind,
    Option.some_bind, Option.none_bind, Bool.false_eq_true, if_false, if_true,
    Bool.false_and, List.isEmpty_eq_true]
  cases hft : firstLegTrim false r with
  | none => rfl
  | some r1 =>
    simp only [Option.some_bind]
    cases r1.getLast? <;> rfl

/-- The stitching shape of `processRouteRequest` for requests with
non-junction endpoints whose per-leg searches all succeed soundly and whose
first leg needs no leading-edge trim: the result is code 0 with the first
leg, the later legs each with their leading edge dropped, and the final
anti-parallel trim applied. -/
theorem processRouteRequest_stitch (gpairs : List (PyStr × PyStr))
    (sp : PyStr → PyStr → Option (List PyStr))
    (jd : List (PyStr × (List PyStr × List PyStr))) (src : PyStr)
    (dests : List PyStr)
    (hsrc : isJunction src = some false)
    (hdests : ∀ x ∈ dests, isJunction x = some false)
    (hcalls : callsOkB gpairs sp src dests = true)
    (hne : dests ≠ [])
    (hft : firstLegNoTrimB (legsOf sp src dests) = true) :
    processRouteRequest sp jd src dests =
      (routeFinalTrim (stitchLegs (legsOf sp src dests))).map
        (fun r => (0, some r)) := by
  match dests, hne with
  | d :: ds, _ =>
    obtain ⟨r, hsp, hleg, hrec⟩ := callsOkB_cons hcalls
    obtain ⟨hneg, hhead, hrlast, _, hids⟩ := legOkB_unpack hleg
    have hd : isJunction d = some false := hdests d (List.mem_cons_self d ds)
    have hds : ∀ x ∈ ds, isJunction x = some false :=
      fun x hx => hdests x (List.mem_cons_of_mem d hx)
    have hproc : processRouteRequest sp jd src (d :: ds) =
        dijkstraRouteLoop sp jd (d :: ds) src [] true false := by
      simp only [processRouteRequest, hsrc, Option.pure_def,
        Option.bind_eq_bind, Option.some_bind, Bool.false_eq_true, if_false]
    rw [hproc, dijkstraRouteLoop_cons_first sp jd d ds src [] r hd hsp]
    have hlegs : legsOf sp src (d :: ds) = r :: legsOf sp d ds := by
      rw [legsOf_cons ds hsp, hrlast]
      rfl
    have hnotrim : firstLegTrim false r = some r := by
      refine firstLegTrim_noTrim r hids ?_
      rw [hlegs] at hft
      exact hft
    rw [hnotrim, Option.some_bind]
    have hsrc2 : r.getLast?.getD d = d := by
      rw [hrlast, Option.getD_some]
    have hreclegs : callsOkB gpairs sp (r.getLast?.getD src) ds = true := hrec
    rw [hrlast] at hreclegs
    rw [hsrc2, List.nil_append]
    rw [dijkstraRouteLoop_nonfirst gpairs sp jd false ds d r hds hreclegs hrlast]
    rw [hlegs]
    rfl

/-- Every edge id of the stitched route is a non-empty string when all
per-leg searches are sound. -/
theorem stitchLegs_ids_ne {gpairs : List (PyStr × PyStr)}
    {sp : PyStr → PyStr → Option (List PyStr)} {dests : List PyStr}
    {src : PyStr} (hcalls : callsOkB gpairs sp src dests = true) :
    ∀ e ∈ stitchLegs (legsOf sp src dests), e ≠ [] := by
  intro e he
  cases hlg : legsOf sp src dests with
  | nil =>
    rw [hlg] at he
    exact absurd he (List.not_mem_nil e)
  | cons l ls =>
    rw [hlg] at he
    simp only [stitchLegs, List.mem_append, List.mem_flatten, List.mem_map] at he
    rcases he with he1 | ⟨tl, ⟨l2, hl2, rfl⟩, he2⟩
    · exact (legsOf_nonempty hcalls l (by rw [hlg]; exact List.mem_cons_self l ls)).2
        e he1
    · exact (legsOf_nonempty hcalls l2
        (by rw [hlg]; exact List.mem_cons_of_mem l hl2)).2 e
        (List.mem_of_mem_tail he2)

/-- The route a stitching-shaped request returns: the stitched legs, with the
last edge dropped exactly when the final anti-parallel trim fires. -/
theorem processRouteRequest_result {gpairs : List (PyStr × PyStr)}
    {sp : PyStr → PyStr → Option (List PyStr)}
    {jd : List (PyStr × (List PyStr × List PyStr))} {src : PyStr}
    {dests : List PyStr} {r : List PyStr}
    (hsrc : isJunction src = some false)
    (hdests : ∀ x ∈ dests, isJunction x = some false)
    (hcalls : callsOkB gpairs sp src dests = true)
    (hne : dests ≠ [])
    (hft : firstLegNoTrimB (legsOf sp src dests) = true)
    (hres : processRouteRequest sp jd src dests = some (0, some r)) :
    r = if lastPairOppositeB (stitchLegs (legsOf sp src dests)) = true
        then (stitchLegs (legsOf sp src dests)).dropLast
        else stitchLegs (legsOf sp src dests) := by
  rw [processRouteRequest_stitch gpairs sp jd src dests hsrc hdests hcalls hne hft,
    routeFinalTrim_eq _ (stitchLegs_ids_ne hcalls)] at hres
  simp only [Option.map_some', Option.some_inj, Prod.mk.injEq, true_and] at hres
  exact hres.symm

/-! Equation lemmas for the dijkstra loop, all flag combinations. -/

theorem dijkstraRouteLoop_cons_jnone (sp : PyStr → PyStr → Option (List PyStr))
    (jd : List (PyStr × (List PyStr × List PyStr))) (dest : PyStr)
    (rest : List PyStr) (src : PyStr) (route : List PyStr) (first sj : Bool)
    (h1 : isJunction dest = none) :
    dijkstraRouteLoop sp jd (dest :: rest) src route first sj = none := by
  simp only [dijkstraRouteLoop, h1, Option.pure_def, Option.bind_eq_bind,
    Option.none_bind]

theorem dijkstraRouteLoop_cons_resNone (sp : PyStr → PyStr → Option (List PyStr))
    (jd : List (PyStr × (List PyStr × List PyStr))) (dest : PyStr)
    (rest : List PyStr) (src : PyStr) (route : List PyStr) (first sj : Bool)
    (h1 : isJunction dest = some true)
    (h2 : resolveJunctionEdge jd Prod.snd dest = none) :
    dijkstraRouteLoop sp jd (dest :: rest) src route first sj = none := by
  simp only [dijkstraRouteLoop, h1, h2, Option.pure_def, Option.bind_eq_bind,
    Option.some_bind, Option.none_bind, if_true]

theorem dijkstraRouteLoop_cons_spNone (sp : PyStr → PyStr → Option (List PyStr))
    (jd : List (PyStr × (List PyStr × List PyStr))) (dest : PyStr)
    (rest : List PyStr) (src : PyStr) (route : List PyStr) (first sj : Bool)
    (h1 : isJunction dest = some false)
    (h3 : sp src dest = none) :
    dijkstraRouteLoop sp jd (dest :: rest) src route first sj =
      some (ROUTE_ERROR_CONNECTION, none) := by
  simp only [dijkstraRouteLoop, h1, h3, Option.pure_def, Option.bind_eq_bind,
    Option.some_bind, Bool.false_eq_true, if_false]

theorem dijkstraRouteLoop_cons_jspNone (sp : PyStr → PyStr → Option (List PyStr))
    (jd : List (PyStr × (List PyStr × List PyStr))) (dest : PyStr)
    (rest : List PyStr) (src : PyStr) (route : List PyStr) (first sj : Bool)
    (e : PyStr)
    (h1 : isJunction dest = some true)
    (h2 : resolveJunctionEdge jd Prod.snd dest = some e)
    (h3 : sp src e = none) :
    dijkstraRouteLoop sp jd (dest :: rest) src route first sj =
      some (ROUTE_ERROR_CONNECTION, none) := by
  simp only [dijkstraRouteLoop, h1, h2, h3, Option.pure_def, Option.bind_eq_bind,
    Option.some_bind, if_true]

theorem dijkstraRouteLoop_cons_first_gen (sp : PyStr → PyStr → Option (List PyStr))
    (jd : List (PyStr × (List PyStr × List PyStr))) (dest : PyStr)
    (rest : List PyStr) (src : PyStr) (route : List PyStr) (sj : Bool)
    (leg0 : List PyStr)
    (h1 : isJunction dest = some false)
    (h3 : sp src dest = some leg0) :
    dijkstraRouteLoop sp jd (dest :: rest) src route true sj =
      (firstLegTrim sj leg0).bind fun l1 =>
        dijkstraRouteLoop sp jd rest (l1.getLast?.getD dest) (route ++ l1) false sj := by
  simp only [dijkstraRouteLoop, h1, h3, Option.pure_def, Option.bind_eq_bind,
    Option.some_bind, Bool.false_eq_true, if_false, if_true, Bool.false_and,
    List.isEmpty_eq_true]
  cases hft : firstLegTrim sj leg0 with
  | none => rfl
  | some l1 =>
    simp only [Option.some_bind]
    cases l1.getLast? <;> rfl

theorem dijkstraRouteLoop_cons_j_first (sp : PyStr → PyStr → Option (List PyStr))
    (jd : List (PyStr × (List PyStr × List PyStr))) (dest : PyStr)
    (rest : List PyStr) (src : PyStr) (route : List PyStr) (sj : Bool)
    (e : PyStr) (leg0 : List PyStr)
    (h1 : isJunction dest = some true)
    (h2 : resolveJunctionEdge jd Prod.snd dest = some e)
    (h3 : sp src e = some leg0) :
    dijkstraRouteLoop sp jd (dest :: rest) src route true sj =
      (firstLegTrim sj leg0).bind fun l1 =>
        dijkstraRouteLoop sp jd rest
          ((l1.dropLast).getLast?.getD e) (route ++ l1.dropLast) false sj := by
  simp only [dijkstraRouteLoop, h1, h2, h3, Option.pure_def, Option.bind_eq_bind,
    Option.some_bind, if_true, Bool.true_and]
  cases hft : firstLegTrim sj leg0 with
  | none => rfl
  | some l1 =>
    simp only [Option.some_bind]
    cases l1 with
    | nil => simp
    | cons a t =>
      simp only [List.isEmpty_cons, Bool.not_false, if_true]
      cases ((a :: t).dropLast).getLast? <;> rfl

theorem dijkstraRouteLoop_cons_j_nonfirst_short (sp : PyStr → PyStr → Option (List PyStr))
    (jd : List (PyStr × (List PyStr × List PyStr))) (dest : PyStr)
    (rest : List PyStr) (src : PyStr) (route : List PyStr) (sj : Bool)
    (e : PyStr) (leg0 : List PyStr)
    (h1 : isJunction dest = some true)
    (h2 : resolveJunctionEdge jd Prod.snd dest = some e)
    (h3 : sp src e = some leg0)
    (hlen : leg0.length ≤ 1) :
    dijkstraRouteLoop sp jd (dest :: rest) src route false sj = none := by
  simp only [dijkstraRouteLoop, h1, h2, h3, Option.pure_def, Option.bind_eq_bind,
    Option.some_bind, if_true, Bool.true_and, Bool.false_eq_true, if_false]
  match leg0, hlen with
  | [], _ => simp
  | [e0], _ => simp

theorem dijkstraRouteLoop_cons_j_nonfirst2 (sp : PyStr → PyStr → Option (List PyStr))
    (jd : List (PyStr × (List PyStr × List PyStr))) (dest : PyStr)
    (rest : List PyStr) (src : PyStr) (route : List PyStr) (sj : Bool)
    (e : PyStr) (e0 b : PyStr) (lt : List PyStr)
    (h1 : isJunction dest = some true)
    (h2 : resolveJunctionEdge jd Prod.snd dest = some e)
    (h3 : sp src e = some (e0 :: b :: lt)) :
    dijkstraRouteLoop sp jd (dest :: rest) src route false sj =
      dijkstraRouteLoop sp jd rest
        (((b :: lt).dropLast).getLast?.getD e) (route ++ (b :: lt).dropLast) false sj := by
  simp only [dijkstraRouteLoop, h1, h2, h3, Option.pure_def, Option.bind_eq_bind,
    Option.some_bind, if_true, Bool.true_and, Bool.false_eq_true, if_false,
    List.isEmpty_cons, Bool.not_false, List.dropLast]
  cases hgl : ((b :: lt).dropLast).getLast? <;>
    simp only [hgl, Option.getD_some, Option.getD_none]

theorem dijkstraRouteLoop_cons_nonfirst_nil (sp : PyStr → PyStr → Option (List PyStr))
    (jd : List (PyStr × (List PyStr × List PyStr))) (dest : PyStr)
    (rest : List PyStr) (src : PyStr) (route : List PyStr) (sj : Bool)
    (h1 : isJunction dest = some false)
    (h3 : sp src dest = some []) :
    dijkstraRouteLoop sp jd (dest :: rest) src route false sj = none := by
  simp only [dijkstraRouteLoop, h1, h3, Option.pure_def, Option.bind_eq_bind,
    Option.some_bind, Bool.false_eq_true, if_false]
  simp

/-! Helpers for the chain theorem. -/

theorem firstLegTrim_some {b : Bool} {r x : List PyStr}
    (h : firstLegTrim b r = some x) : x = r ∨ x = r.tail := by
  rw [firstLegTrim.eq_def] at h
  by_cases hb : (b && !r.isEmpty) = true
  · rw [if_pos hb] at h
    right
    exact (Option.some_inj.mp h).symm
  · rw [if_neg hb] at h
    cases r with
    | nil =>
      left
      exact (Option.some_inj.mp h).symm
    | cons e0 r1 =>
      cases r1 with
      | nil =>
        left
        exact (Option.some_inj.mp h).symm
      | cons e1 rest =>
        cases ho : getOppositeEdge e0 with
        | none =>
          simp only [ho] at h
          exact absurd h (by simp)
        | some o =>
          simp only [ho] at h
          by_cases he : e1 = o
          · rw [if_pos he] at h
            right
            exact (Option.some_inj.mp h).symm
          · rw [if_neg he] at h
            left
            exact (Option.some_inj.mp h).symm

theorem routeFinalTrim_some {route x : List PyStr}
    (h : routeFinalTrim route = some x) : x = route ∨ x = route.dropLast := by
  rw [routeFinalTrim] at h
  by_cases hlen : 1 < route.length
  · rw [if_pos hlen] at h
    cases hl : route.getLast? with
    | none =>
      rw [hl] at h
      exact absurd h (by simp)
    | some lastE =>
      simp only [hl] at h
      cases ho : getOppositeEdge lastE with
      | none =>
        rw [ho] at h
        exact absurd h (by simp)
      | some opp =>
        simp only [ho] at h
        by_cases he : route[route.length - 2]? = some opp
        · rw [if_pos he] at h
          right
          exact (Option.some_inj.mp h).symm
        · rw [if_neg he] at h
          left
          exact (Option.some_inj.mp h).symm
  · rw [if_neg hlen] at h
    left
    exact (Option.some_inj.mp h).symm

theorem chain'_tail {R : PyStr → PyStr → Prop} {l : List PyStr}
    (h : List.Chain' R l) : List.Chain' R l.tail := by
  cases l with
  | nil => simp
  | cons a t => exact (List.chain'_cons'.mp h).2

theorem chain'_append_link {R : PyStr → PyStr → Prop} {route t : List PyStr}
    {s : PyStr} (hroute : List.Chain' R route) (hfrag : List.Chain' R (s :: t))
    (hlast : route = [] ∨ route.getLast? = some s) :
    List.Chain' R (route ++ t) := by
  rcases hlast with rfl | hlst
  · simpa using chain'_tail hfrag
  · rw [List.chain'_append]
    refine ⟨hroute, (List.chain'_cons'.mp hfrag).2, ?_⟩
    intro x hx y hy
    have hx2 : x = s := by
      rw [Option.mem_def, hlst] at hx
      exact (Option.some_inj.mp hx).symm
    subst hx2
    exact (List.chain'_cons'.mp hfrag).1 y hy

theorem getLastD_inv (t : List PyStr) (dflt : PyStr) :
    t = [] ∨ t.getLast? = some (t.getLast?.getD dflt) := by
  cases ht : t.getLast? with
  | none =>
    left
    exact List.getLast?_eq_none_iff.mp ht
  | some x =>
    right
    rw [Option.getD_some]

/-- Chain invariant for the destination loop: with a globally sound search
oracle and no two-edge leg at a junction-resolved destination, any code-0
route the loop returns follows the graph successor relation. -/
theorem dijkstraRouteLoop_chain_aux (gpairs : List (PyStr × PyStr))
    (sp : PyStr → PyStr → Option (List PyStr))
    (jd : List (PyStr × (List PyStr × List PyStr)))
    (hsound : ∀ s d l, sp s d = some l → legOkB gpairs s d l = true) :
    ∀ (dests : List PyStr) (src : PyStr) (route : List PyStr)
      (first sj : Bool) (r : List PyStr),
      (∀ d ∈ dests, isJunction d = some true →
        ∀ e l s, resolveJunctionEdge jd Prod.snd d = some e →
          sp s e = some l → l.length ≠ 2) →
      List.Chain' (fun a b => graphSuccB gpairs a b = true) route →
      (route = [] ∨ route.getLast? = some src) →
      (first = true → route = []) →
      dijkstraRouteLoop sp jd dests src route first sj = some (0, some r) →
      List.Chain' (fun a b => graphSuccB gpairs a b = true) r := by
  intro dests
  induction dests with
  | nil =>
    intro src route first sj r hj2 hchain hlast hfr hres
    simp only [dijkstraRouteLoop] at hres
    cases hrt : routeFinalTrim route with
    | none =>
      rw [hrt] at hres
      exact absurd hres (by simp)
    | some x =>
      rw [hrt] at hres
      simp only [Option.map_some', Option.some_inj, Prod.mk.injEq, true_and] at hres
      subst hres
      rcases routeFinalTrim_some hrt with rfl | rfl
      · exact hchain
      · exact hchain.init
  | cons dest rest ih =>
    intro src route first sj r hj2 hchain hlast hfr hres
    have hj2rest : ∀ d ∈ rest, isJunction d = some true →
        ∀ e l s, resolveJunctionEdge jd Prod.snd d = some e →
          sp s e = some l → l.length ≠ 2 :=
      fun d hd => hj2 d (List.mem_cons_of_mem dest hd)
    cases h1 : isJunction dest with
    | none =>
      rw [dijkstraRouteLoop_cons_jnone sp jd dest rest src route first sj h1] at hres
      exact absurd hres (by simp)
    | some dj =>
      cases dj with
      | false =>
        cases h3 : sp src dest with
        | none =>
          rw [dijkstraRouteLoop_cons_spNone sp jd dest rest src route first sj h1 h3] at hres
          simp [ROUTE_ERROR_CONNECTION] at hres
        | some leg0 =>
          obtain ⟨hne0, hhead0, hlast0, hchain0, -⟩ := legOkB_unpack (hsound _ _ _ h3)
          cases first with
          | true =>
            have hroute0 : route = [] := hfr rfl
            subst hroute0
            rw [dijkstraRouteLoop_cons_first_gen sp jd dest rest src [] sj leg0 h1 h3] at hres
            cases h4 : firstLegTrim sj leg0 with
            | none =>
              rw [h4] at hres
              exact absurd hres (by simp)
            | some l1 =>
              rw [h4, Option.some_bind] at hres
              simp only [List.nil_append] at hres
              have hchain1 : List.Chain' (fun a b => graphSuccB gpairs a b = true) l1 := by
                rcases firstLegTrim_some h4 with rfl | rfl
                · exact hchain0
                · exact chain'_tail hchain0
              exact ih _ _ false sj r hj2rest hchain1 (getLastD_inv l1 dest) (by simp) hres
          | false =>
            cases leg0 with
            | nil => exact absurd rfl hne0
            | cons e0 t =>
              have he0 : e0 = src := by
                simp only [List.head?_cons, Option.some_inj] at hhead0
                exact hhead0
              subst he0
              rw [dijkstraRouteLoop_cons_nonfirst2 sp jd dest rest e0 route sj e0 t h1 h3] at hres
              have hchain2 := chain'_append_link hchain hchain0 hlast
              cases t with
              | nil =>
                simp only [List.append_nil] at hres hchain2
                have hed : e0 = dest := by
                  simp only [List.getLast?_singleton, Option.some_inj] at hlast0
                  exact hlast0
                refine ih _ _ false sj r hj2rest hchain2 ?_ (by simp) hres
                rcases hlast with rfl | hl
                · exact Or.inl rfl
                · right
                  rw [hl, hed]
                  rfl
              | cons t0 tt =>
                refine ih _ _ false sj r hj2rest hchain2 ?_ (by simp) hres
                right
                rw [List.getLast?_append_of_ne_nil route (by simp)]
                cases hgl : (t0 :: tt).getLast? with
                | none => simp at hgl
                | some y => simp [hgl]
      | true =>
        cases h2 : resolveJunctionEdge jd Prod.snd dest with
        | none =>
          rw [dijkstraRouteLoop_cons_resNone sp jd dest rest src route first sj h1 h2] at hres
          exact absurd hres (by simp)
        | some e =>
          cases h3 : sp src e with
          | none =>
            rw [dijkstraRouteLoop_cons_jspNone sp jd dest rest src route first sj e h1 h2 h3] at hres
            simp [ROUTE_ERROR_CONNECTION] at hres
          | some leg0 =>
            obtain ⟨hne0, hhead0, hlast0, hchain0, -⟩ := legOkB_unpack (hsound _ _ _ h3)
            cases first with
            | true =>
              have hroute0 : route = [] := hfr rfl
              subst hroute0
              rw [dijkstraRouteLoop_cons_j_first sp jd dest rest src [] sj e leg0 h1 h2 h3] at hres
              cases h4 : firstLegTrim sj leg0 with
              | none =>
                rw [h4] at hres
                exact absurd hres (by simp)
              | some l1 =>
                rw [h4, Option.some_bind] at hres
                simp only [List.nil_append] at hres
                have hchain1 : List.Chain' (fun a b => graphSuccB gpairs a b = true)
                    l1.dropLast := by
                  rcases firstLegTrim_some h4 with rfl | rfl
                  · exact hchain0.init
                  · exact (chain'_tail hchain0).init
                exact ih _ _ false sj r hj2rest hchain1 (getLastD_inv l1.dropLast e)
                  (by simp) hres
            | false =>
              cases leg0 with
              | nil => exact absurd rfl hne0
              | cons e0 t =>
                have he0 : e0 = src := by
                  simp only [List.head?_cons, Option.some_inj] at hhead0
                  exact hhead0
                subst he0
                cases t with
                | nil =>
                  rw [dijkstraRouteLoop_cons_j_nonfirst_short sp jd dest rest e0 route
                    sj e [e0] h1 h2 h3 (by simp)] at hres
                  exact absurd hres (by simp)
                | cons b lt =>
                  cases lt with
                  | nil =>
                    have hlen := hj2 dest (List.mem_cons_self dest rest) h1 e [e0, b]
                      e0 h2 h3
                    exact absurd rfl hlen
                  | cons c lt2 =>
                    rw [dijkstraRouteLoop_cons_j_nonfirst2 sp jd dest rest e0 route sj
                      e e0 b (c :: lt2) h1 h2 h3] at hres
                    have hchainfrag : List.Chain' (fun a b => graphSuccB gpairs a b = true)
                        (e0 :: (b :: c :: lt2).dropLast) := hchain0.init
                    have hchain2 := chain'_append_link hchain hchainfrag hlast
                    refine ih _ _ false sj r hj2rest hchain2 ?_ (by simp) hres
                    right
                    rw [List.getLast?_append_of_ne_nil route
                      (by rw [show (b :: c :: lt2).dropLast = b :: (c :: lt2).dropLast
                          from rfl]; simp)]
                    cases hgl : ((b :: c :: lt2).dropLast).getLast? with
                    | none =>
                      rw [show (b :: c :: lt2).dropLast = b :: (c :: lt2).dropLast
                        from rfl] at hgl
                      simp at hgl
                    | some y => simp [hgl]

/-- Top-level: a code-0 route of `dijkstraRoute.processRouteRequest` is
junction-contiguous. -/
theorem processRouteRequest_chain (gpairs : List (PyStr × PyStr))
    (edgesDict : List (PyStr × (PyStr × PyStr)))
    (sp : PyStr → PyStr → Option (List PyStr))
    (jd : List (PyStr × (List PyStr × List PyStr))) (src : PyStr)
    (dests : List PyStr)
    (hsucc : ∀ p ∈ gpairs, junctionsMatch edgesDict p.1 p.2 = true)
    (hsound : ∀ s d l, sp s d = some l → legOkB gpairs s d l = true)
    (hj2 : ∀ d ∈ dests, isJunction d = some true →
      ∀ e l s, resolveJunctionEdge jd Prod.snd d = some e →
        sp s e = some l → l.length ≠ 2) :
    ∀ r, processRouteRequest sp jd src dests = some (0, some r) →
      List.Chain' (fun a b => junctionsMatch edgesDict a b = true) r := by
  intro r hres
  have hg : List.Chain' (fun a b => graphSuccB gpairs a b = true) r := by
    cases hsj : isJunction src with
    | none =>
      simp only [processRouteRequest, hsj, Option.pure_def, Option.bind_eq_bind,
        Option.none_bind] at hres
      exact absurd hres (by simp)
    | some b =>
      cases b with
      | true =>
        cases hrs : resolveJunctionEdge jd Prod.fst src with
        | none =>
          simp only [processRouteRequest, hsj, hrs, Option.pure_def,
            Option.bind_eq_bind, Option.some_bind, Option.none_bind, if_true] at hres
          exact absurd hres (by simp)
        | some s2 =>
          simp only [processRouteRequest, hsj, hrs, Option.pure_def,
            Option.bind_eq_bind, Option.some_bind, if_true] at hres
          exact dijkstraRouteLoop_chain_aux gpairs sp jd hsound dests s2 [] true true r
            hj2 (by simp) (Or.inl rfl) (fun _ => rfl) hres
      | false =>
        simp only [processRouteRequest, hsj, Option.pure_def, Option.bind_eq_bind,
          Option.some_bind, Bool.false_eq_true, if_false] at hres
        exact dijkstraRouteLoop_chain_aux gpairs sp jd hsound dests src [] true false r
          hj2 (by simp) (Or.inl rfl) (fun _ => rfl) hres
  exact hg.imp fun a b hab => hsucc (a, b) (of_decide_eq_true hab)

/-! Equation lemmas for the astra duarouter loop — the same iteration body
as the dijkstra loop with the solver-and-parse stage as the leg oracle. -/

theorem duarouterRouteLoop_cons_jnone (leg : PyStr → PyStr → ℕ ⊕ List PyStr)
    (jd : List (PyStr × (List PyStr × List PyStr))) (dest : PyStr)
    (rest : List PyStr) (src : PyStr) (route : List PyStr) (first sj : Bool)
    (h1 : isJunction dest = none) :
    duarouterRouteLoop leg jd (dest :: rest) src route first sj = none := by
  simp only [duarouterRouteLoop, h1, Option.pure_def, Option.bind_eq_bind,
    Option.none_bind]

theorem duarouterRouteLoop_cons_resNone (leg : PyStr → PyStr → ℕ ⊕ List PyStr)
    (jd : List (PyStr × (List PyStr × List PyStr))) (dest : PyStr)
    (rest : List PyStr) (src : PyStr) (route : List PyStr) (first sj : Bool)
    (h1 : isJunction dest = some true)
    (h2 : resolveJunctionEdge jd Prod.snd dest = none) :
    duarouterRouteLoop leg jd (dest :: rest) src route first sj = none := by
  simp only [duarouterRouteLoop, h1, h2, Option.pure_def, Option.bind_eq_bind,
    Option.some_bind, Option.none_bind, if_true]

theorem duarouterRouteLoop_cons_inl (leg : PyStr → PyStr → ℕ ⊕ List PyStr)
    (jd : List (PyStr × (List PyStr × List PyStr))) (dest : PyStr)
    (rest : List PyStr) (src : PyStr) (route : List PyStr) (first sj : Bool)
    (rc : ℕ)
    (h1 : isJunction dest = some false)
    (h3 : leg src dest = Sum.inl rc) :
    duarouterRouteLoop leg jd (dest :: rest) src route first sj = some (rc, none) := by
  simp only [duarouterRouteLoop, h1, h3, Option.pure_def, Option.bind_eq_bind,
    Option.some_bind, Bool.false_eq_true, if_false]

theorem duarouterRouteLoop_cons_j_inl (leg : PyStr → PyStr → ℕ ⊕ List PyStr)
    (jd : List (PyStr × (List PyStr × List PyStr))) (dest : PyStr)
    (rest : List PyStr) (src : PyStr) (route : List PyStr) (first sj : Bool)
    (e : PyStr) (rc : ℕ)
    (h1 : isJunction dest = some true)
    (h2 : resolveJunctionEdge jd Prod.snd dest = some e)
    (h3 : leg src e = Sum.inl rc) :
    duarouterRouteLoop leg jd (dest :: rest) src route first sj = some (rc, none) := by
  simp only [duarouterRouteLoop, h1, h2, h3, Option.pure_def, Option.bind_eq_bind,
    Option.some_bind, if_true]

theorem duarouterRouteLoop_cons_first_gen (leg : PyStr → PyStr → ℕ ⊕ List PyStr)
    (jd : List (PyStr × (List PyStr × List PyStr))) (dest : PyStr)
    (rest : List PyStr) (src : PyStr) (route : List PyStr) (sj : Bool)
    (leg0 : List PyStr)
    (h1 : isJunction dest = some false)
    (h3 : leg src dest = Sum.inr leg0) :
    duarouterRouteLoop leg jd (dest :: rest) src route true sj =
      (firstLegTrim sj leg0).bind fun l1 =>
        duarouterRouteLoop leg jd rest (l1.getLast?.getD dest) (route ++ l1) false sj := by
  simp only [duarouterRouteLoop, h1, h3, Option.pure_def, Option.bind_eq_bind,
    Option.some_bind, Bool.false_eq_true, if_false, if_true, Bool.false_and,
    List.isEmpty_eq_true]
  cases hft : firstLegTrim sj leg0 with
  | none => rfl
  | some l1 =>
    simp only [Option.some_bind]
    cases l1.getLast? <;> rfl

theorem duarouterRouteLoop_cons_j_first (leg : PyStr → PyStr → ℕ ⊕ List PyStr)
    (jd : List (PyStr × (List PyStr × List PyStr))) (dest : PyStr)
    (rest : List PyStr) (src : PyStr) (route : List PyStr) (sj : Bool)
    (e : PyStr) (leg0 : List PyStr)
    (h1 : isJunction dest = some true)
    (h2 : resolveJunctionEdge jd Prod.snd dest = some e)
    (h3 : leg src e = Sum.inr leg0) :
    duarouterRouteLoop leg jd (dest :: rest) src route true sj =
      (firstLegTrim sj leg0).bind fun l1 =>
        duarouterRouteLoop leg jd rest
          ((l1.dropLast).getLast?.getD e) (route ++ l1.dropLast) false sj := by
  simp only [duarouterRouteLoop, h1, h2, h3, Option.pure_def, Option.bind_eq_bind,
    Option.some_bind, if_true, Bool.true_and]
  cases hft : firstLegTrim sj leg0 with
  | none => rfl
  | some l1 =>
    simp only [Option.some_bind]
    cases l1 with
    | nil => simp
    | cons a t =>
      simp only [List.isEmpty_cons, Bool.not_false, if_true]
      cases ((a :: t).dropLast).getLast? <;> rfl

theorem duarouterRouteLoop_cons_j_nonfirst_short (leg : PyStr → PyStr → ℕ ⊕ List PyStr)
    (jd : List (PyStr × (List PyStr × List PyStr))) (dest : PyStr)
    (rest : List PyStr) (src : PyStr) (route : List PyStr) (sj : Bool)
    (e : PyStr) (leg0 : List PyStr)
    (h1 : isJunction dest = some true)
    (h2 : resolveJunctionEdge jd Prod.snd dest = some e)
    (h3 : leg src e = Sum.inr leg0)
    (hlen : leg0.length ≤ 1) :
    duarouterRouteLoop leg jd (dest :: rest) src route false sj = none := by
  simp only [duarouterRouteLoop, h1, h2, h3, Option.pure_def, Option.bind_eq_bind,
    Option.some_bind, if_true, Bool.true_and, Bool.false_eq_true, if_false]
  match leg0, hlen with
  | [], _ => simp
  | [e0], _ => simp

theorem duarouterRouteLoop_cons_j_nonfirst2 (leg : PyStr → PyStr → ℕ ⊕ List PyStr)
    (jd : List (PyStr × (List PyStr × List PyStr))) (dest : PyStr)
    (rest : List PyStr) (src : PyStr) (route : List PyStr) (sj : Bool)
    (e : PyStr) (e0 b : PyStr) (lt : List PyStr)
    (h1 : isJunction dest = some true)
    (h2 : resolveJunctionEdge jd Prod.snd dest = some e)
    (h3 : leg src e = Sum.inr (e0 :: b :: lt)) :
    duarouterRouteLoop leg jd (dest :: rest) src route false sj =
      duarouterRouteLoop leg jd rest
        (((b :: lt).dropLast).getLast?.getD e) (route ++ (b :: lt).dropLast) false sj := by
  simp only [duarouterRouteLoop, h1, h2, h3, Option.pure_def, Option.bind_eq_bind,
    Option.some_bind, if_true, Bool.true_and, Bool.false_eq_true, if_false,
    List.isEmpty_cons, Bool.not_false, List.dropLast]
  cases hgl : ((b :: lt).dropLast).getLast? <;>
    simp only [hgl, Option.getD_some, Option.getD_none]

theorem duarouterRouteLoop_cons_nonfirst_nil (leg : PyStr → PyStr → ℕ ⊕ List PyStr)
    (jd : List (PyStr × (List PyStr × List PyStr))) (dest : PyStr)
    (rest : List PyStr) (src : PyStr) (route : List PyStr) (sj : Bool)
    (h1 : isJunction dest = some false)
    (h3 : leg src dest = Sum.inr []) :
    duarouterRouteLoop leg jd (dest :: rest) src route false sj = none := by
  simp only [duarouterRouteLoop, h1, h3, Option.pure_def, Option.bind_eq_bind,
    Option.some_bind, Bool.false_eq_true, if_false]
  simp

theorem duarouterRouteLoop_cons_nonfirst2 (leg : PyStr → PyStr → ℕ ⊕ List PyStr)
    (jd : List (PyStr × (List PyStr × List PyStr))) (dest : PyStr)
    (rest : List PyStr) (src : PyStr) (route : List PyStr) (sj : Bool)
    (e0 : PyStr) (t : List PyStr)
    (h1 : isJunction dest = some false)
    (h3 : leg src dest = Sum.inr (e0 :: t)) :
    duarouterRouteLoop leg jd (dest :: rest) src route false sj =
      duarouterRouteLoop leg jd rest (t.getLast?.getD dest) (route ++ t) false sj := by
  simp only [duarouterRouteLoop, h1, h3, Option.pure_def, Option.bind_eq_bind,
    Option.some_bind, Option.none_bind, Bool.false_eq_true, if_false,
    Bool.false_and, List.isEmpty_eq_true]
  cases hgl : t.getLast? <;> simp only [hgl, Option.getD_some, Option.getD_none]

/-- The oracle view of the solver-and-parse stage: `some` exactly on
successful legs. -/
theorem spOfLeg_inr {leg : PyStr → PyStr → ℕ ⊕ List PyStr} {s d : PyStr}
    {l : List PyStr} (h : leg s d = Sum.inr l) : spOfLeg leg s d = some l := by
  simp [spOfLeg, h]

/-- A code-0 result of the duarouter loop is a code-0 result of the dijkstra
loop run on the oracle view of the leg stage: the two loops are the same
iteration body and differ only in their error outputs. -/
theorem duarouterRouteLoop_toDijkstra (leg : PyStr → PyStr → ℕ ⊕ List PyStr)
    (jd : List (PyStr × (List PyStr × List PyStr))) :
    ∀ (dests : List PyStr) (src : PyStr) (route : List PyStr) (first sj : Bool)
      (r : List PyStr),
      duarouterRouteLoop leg jd dests src route first sj = some (0, some r) →
      dijkstraRouteLoop (spOfLeg leg) jd dests src route first sj = some (0, some r) := by
  intro dests
  induction dests with
  | nil =>
    intro src route first sj r hres
    simp only [duarouterRouteLoop] at hres
    simp only [dijkstraRouteLoop]
    exact hres
  | cons dest rest ih =>
    intro src route first sj r hres
    cases h1 : isJunction dest with
    | none =>
      rw [duarouterRouteLoop_cons_jnone leg jd dest rest src route first sj h1] at hres
      exact absurd hres (by simp)
    | some dj =>
      cases dj with
      | false =>
        cases h3 : leg src dest with
        | inl rc =>
          rw [duarouterRouteLoop_cons_inl leg jd dest rest src route first sj rc h1 h3]
            at hres
          simp at hres
        | inr leg0 =>
          have h3' : spOfLeg leg src dest = some leg0 := spOfLeg_inr h3
          cases first with
          | true =>
            rw [duarouterRouteLoop_cons_first_gen leg jd dest rest src route sj leg0
              h1 h3] at hres
            rw [dijkstraRouteLoop_cons_first_gen (spOfLeg leg) jd dest rest src route
              sj leg0 h1 h3']
            cases hft : firstLegTrim sj leg0 with
            | none =>
              rw [hft] at hres
              exact absurd hres (by simp)
            | some l1 =>
              rw [hft, Option.some_bind] at hres
              rw [Option.some_bind]
              exact ih _ _ _ _ _ hres
          | false =>
            cases leg0 with
            | nil =>
              rw [duarouterRouteLoop_cons_nonfirst_nil leg jd dest rest src route sj
                h1 h3] at hres
              exact absurd hres (by simp)
            | cons e0 t =>
              rw [duarouterRouteLoop_cons_nonfirst2 leg jd dest rest src route sj e0 t
                h1 h3] at hres
              rw [dijkstraRouteLoop_cons_nonfirst2 (spOfLeg leg) jd dest rest src route
                sj e0 t h1 h3']
              exact ih _ _ _ _ _ hres
      | true =>
        cases h2 : resolveJunctionEdge jd Prod.snd dest with
        | none =>
          rw [duarouterRouteLoop_cons_resNone leg jd dest rest src route first sj
            h1 h2] at hres
          exact absurd hres (by simp)
        | some e =>
          cases h3 : leg src e with
          | inl rc =>
            rw [duarouterRouteLoop_cons_j_inl leg jd dest rest src route first sj e rc
              h1 h2 h3] at hres
            simp at hres
          | inr leg0 =>
            have h3' : spOfLeg leg src e = some leg0 := spOfLeg_inr h3
            cases first with
            | true =>
              rw [duarouterRouteLoop_cons_j_first leg jd dest rest src route sj e leg0
                h1 h2 h3] at hres
              rw [dijkstraRouteLoop_cons_j_first (spOfLeg leg) jd dest rest src route
                sj e leg0 h1 h2 h3']
              cases hft : firstLegTrim sj leg0 with
              | none =>
                rw [hft] at hres
                exact absurd hres (by simp)
              | some l1 =>
                rw [hft, Option.some_bind] at hres
                rw [Option.some_bind]
                exact ih _ _ _ _ _ hres
            | false =>
              cases leg0 with
              | nil =>
                rw [duarouterRouteLoop_cons_j_nonfirst_short leg jd dest rest src route
                  sj e [] h1 h2 h3 (by simp)] at hres
                exact absurd hres (by simp)
              | cons e0 t =>
                cases t with
                | nil =>
                  rw [duarouterRouteLoop_cons_j_nonfirst_short leg jd dest rest src
                    route sj e [e0] h1 h2 h3 (by simp)] at hres
                  exact absurd hres (by simp)
                | cons b lt =>
                  rw [duarouterRouteLoop_cons_j_nonfirst2 leg jd dest rest src route sj
                    e e0 b lt h1 h2 h3] at hres
                  rw [dijkstraRouteLoop_cons_j_nonfirst2 (spOfLeg leg) jd dest rest src
                    route sj e e0 b lt h1 h2 h3']
                  exact ih _ _ _ _ _ hres

/-- Top-level transfer: `duarouterRoute.processRouteRequest` to the dijkstra
loop on the oracle view. -/
theorem duarouterProcessRouteRequest_toDijkstra (leg : PyStr → PyStr → ℕ ⊕ List PyStr)
    (jd : List (PyStr × (List PyStr × List PyStr))) (src : PyStr)
    (dests : List PyStr) (r : List PyStr)
    (hres : duarouterProcessRouteRequest leg jd src dests = some (0, some r)) :
    processRouteRequest (spOfLeg leg) jd src dests = some (0, some r) := by
  cases hsj : isJunction src with
  | none =>
    simp only [duarouterProcessRouteRequest, hsj, Option.pure_def, Option.bind_eq_bind,
      Option.none_bind] at hres
    exact absurd hres (by simp)
  | some b =>
    cases b with
    | true =>
      cases hrs : resolveJunctionEdge jd Prod.fst src with
      | none =>
        simp only [duarouterProcessRouteRequest, hsj, hrs, Option.pure_def,
          Option.bind_eq_bind, Option.some_bind, Option.none_bind, if_true] at hres
        exact absurd hres (by simp)
      | some s2 =>
        simp only [duarouterProcessRouteRequest, hsj, hrs, Option.pure_def,
          Option.bind_eq_bind, Option.some_bind, if_true] at hres
        simp only [processRouteRequest, hsj, hrs, Option.pure_def,
          Option.bind_eq_bind, Option.some_bind, if_true]
        exact duarouterRouteLoop_toDijkstra leg jd dests s2 [] true true r hres
    | false =>
      simp only [duarouterProcessRouteRequest, hsj, Option.pure_def,
        Option.bind_eq_bind, Option.some_bind, Bool.false_eq_true, if_false] at hres
      simp only [processRouteRequest, hsj, Option.pure_def, Option.bind_eq_bind,
        Option.some_bind, Bool.false_eq_true, if_false]
      exact duarouterRouteLoop_toDijkstra leg jd dests src [] true false r hres

/-- C2 (amended): over a graph whose successor pairs share a junction, with a
globally sound per-leg search and no two-edge leg at a junction-resolved
destination, every code-0 route returned by either strategy — the dijkstra
loop or the identical duarouter loop — is junction-contiguous at every
adjacent pair. -/
theorem C2_route_contiguity (gpairs : List (PyStr × PyStr))
    (edgesDict : List (PyStr × (PyStr × PyStr)))
    (sp : PyStr → PyStr → Option (List PyStr))
    (leg : PyStr → PyStr → ℕ ⊕ List PyStr)
    (jd : List (PyStr × (List PyStr × List PyStr)))
    (src : PyStr) (dests : List PyStr)
    (hsucc : ∀ p ∈ gpairs, junctionsMatch edgesDict p.1 p.2 = true)
    (hsound : ∀ s d l, sp s d = some l → legOkB gpairs s d l = true)
    (hj2 : ∀ d ∈ dests, isJunction d = some true →
      ∀ e l s, resolveJunctionEdge jd Prod.snd d = some e →
        sp s e = some l → l.length ≠ 2)
    (hlegSound : ∀ s d l, leg s d = Sum.inr l → legOkB gpairs s d l = true)
    (hlegj2 : ∀ d ∈ dests, isJunction d = some true →
      ∀ e l s, resolveJunctionEdge jd Prod.snd d = some e →
        leg s e = Sum.inr l → l.length ≠ 2) :
    (∀ r, processRouteRequest sp jd src dests = some (0, some r) →
      List.Chain' (fun a b => junctionsMatch edgesDict a b = true) r) ∧
    (∀ r, duarouterProcessRouteRequest leg jd src dests = some (0, some r) →
      List.Chain' (fun a b => junctionsMatch edgesDict a b = true) r) := by
  constructor
  · exact processRouteRequest_chain gpairs edgesDict sp jd src dests hsucc hsound hj2
  · intro r hres
    have hsound' : ∀ s d l, spOfLeg leg s d = some l → legOkB gpairs s d l = true := by
      intro s d l h
      cases hleg : leg s d with
      | inl rc => simp [spOfLeg, hleg] at h
      | inr l2 =>
        simp only [spOfLeg, hleg, Option.some_inj] at h
        subst h
        exact hlegSound s d l2 hleg
    have hj2' : ∀ d ∈ dests, isJunction d = some true →
        ∀ e l s, resolveJunctionEdge jd Prod.snd d = some e →
          spOfLeg leg s e = some l → l.length ≠ 2 := by
      intro d hd hj e l s h2 hsp
      cases hleg : leg s e with
      | inl rc => simp [spOfLeg, hleg] at hsp
      | inr l2 =>
        simp only [spOfLeg, hleg, Option.some_inj] at hsp
        subst hsp
        exact hlegj2 d hd hj e l2 s h2 hleg
    exact processRouteRequest_chain gpairs edgesDict (spOfLeg leg) jd src dests hsucc
      hsound' hj2' r (duarouterProcessRouteRequest_toDijkstra leg jd src dests r hres)

/-- C2 counterexamples.  First: a single-leg request between non-junction
edges whose search returns `[a, x, -x, b]` is answered with code 0 and that
very route, although `x` and `-x` are adjacent mutual opposites and no
endpoint was junction-resolved — refuting the claim's no-anti-parallel-pair
conjunct.  Second: with sound legs over a junction-contiguous graph, a
two-edge leg at a junction-resolved waypoint is consumed entirely by the
trims, so the source jumps to the resolved edge and the returned route
`[a, b, g, e]` has the non-contiguous adjacent pair `(b, g)` — refuting the
contiguity conjunct itself at such legs. -/
theorem C2_counterexample :
    (processRouteRequest
      (fun s d => if s = pys "a" ∧ d = pys "b" then
          some [pys "a", pys "x", pys "-x", pys "b"] else none)
      [] (pys "a") [pys "b"] =
      some (0, some [pys "a", pys "x", pys "-x", pys "b"]) ∧
    getOppositeEdge (pys "x") = some (pys "-x") ∧
    getOppositeEdge (pys "-x") = some (pys "x") ∧
    isJunction (pys "a") = some false ∧
    isJunction (pys "b") = some false) ∧
    (processRouteRequest
      (fun s d =>
        if s = pys "a" ∧ d = pys "b" then some [pys "a", pys "b"]
        else if s = pys "b" ∧ d = pys "c" then some [pys "b", pys "c"]
        else if s = pys "c" ∧ d = pys "e" then some [pys "c", pys "g", pys "e"]
        else none)
      [(pys "J", ([], [pys "c"]))]
      (pys "a") [pys "b", pys ":J_0", pys "e"] =
      some (0, some [pys "a", pys "b", pys "g", pys "e"]) ∧
    (legOkB [(pys "a", pys "b"), (pys "b", pys "c"), (pys "c", pys "g"),
        (pys "g", pys "e")] (pys "a") (pys "b") [pys "a", pys "b"] &&
      legOkB [(pys "a", pys "b"), (pys "b", pys "c"), (pys "c", pys "g"),
        (pys "g", pys "e")] (pys "b") (pys "c") [pys "b", pys "c"] &&
      legOkB [(pys "a", pys "b"), (pys "b", pys "c"), (pys "c", pys "g"),
        (pys "g", pys "e")] (pys "c") (pys "e") [pys "c", pys "g", pys "e"]) = true ∧
    (∀ p ∈ [(pys "a", pys "b"), (pys "b", pys "c"), (pys "c", pys "g"),
        (pys "g", pys "e")],
      junctionsMatch [(pys "a", (pys "J1", pys "J2")), (pys "b", (pys "J2", pys "J3")),
        (pys "c", (pys "J3", pys "J4")), (pys "g", (pys "J4", pys "J5")),
        (pys "e", (pys "J5", pys "J6"))] p.1 p.2 = true) ∧
    junctionsMatch [(pys "a", (pys "J1", pys "J2")), (pys "b", (pys "J2", pys "J3")),
        (pys "c", (pys "J3", pys "J4")), (pys "g", (pys "J4", pys "J5")),
        (pys "e", (pys "J5", pys "J6"))] (pys "b") (pys "g") = false) := by
  refine ⟨⟨by decide, by decide, by decide, by decide, by decide⟩,
    ⟨by decide, by decide, by decide, by decide⟩⟩

/-- Witness for C2_route_contiguity: a junction source, a junction waypoint
with a three-edge (resp. four-edge) leg, both strategies. -/
theorem C2_route_contiguity_witness :
    List.Chain'
      (fun a b =>
        junctionsMatch
          [(pys "a", (pys "J0", pys "J1")), (pys "b", (pys "J1", pys "J2")),
            (pys "m", (pys "J2", pys "J2")), (pys "c", (pys "J2", pys "J3"))] a b = true)
      [pys "b", pys "m"] ∧
    List.Chain'
      (fun a b =>
        junctionsMatch
          [(pys "a", (pys "J0", pys "J1")), (pys "b", (pys "J1", pys "J2")),
            (pys "m", (pys "J2", pys "J2")), (pys "c", (pys "J2", pys "J3"))] a b = true)
      [pys "b", pys "m", pys "m"] := by
  have h := C2_route_contiguity
    [(pys "a", pys "b"), (pys "b", pys "m"), (pys "m", pys "c"), (pys "m", pys "m")]
    [(pys "a", (pys "J0", pys "J1")), (pys "b", (pys "J1", pys "J2")),
      (pys "m", (pys "J2", pys "J2")), (pys "c", (pys "J2", pys "J3"))]
    (fun s d =>
      if s = pys "a" ∧ d = pys "b" then some [pys "a", pys "b"]
      else if s = pys "b" ∧ d = pys "c" then some [pys "b", pys "m", pys "c"]
      else none)
    (fun s d =>
      if s = pys "a" ∧ d = pys "b" then Sum.inr [pys "a", pys "b"]
      else if s = pys "b" ∧ d = pys "c" then Sum.inr [pys "b", pys "m", pys "m", pys "c"]
      else Sum.inl 1)
    [(pys "S", ([pys "a"], [])), (pys "J", ([], [pys "c"]))]
    (pys ":S_0") [pys "b", pys ":J_0"]
    (by decide)
    (by
      intro s d l hsp
      simp only [] at hsp
      by_cases h1 : s = pys "a" ∧ d = pys "b"
      · rw [if_pos h1] at hsp
        obtain ⟨rfl, rfl⟩ := h1
        injection hsp with h2
        subst h2
        decide
      · rw [if_neg h1] at hsp
        by_cases h2 : s = pys "b" ∧ d = pys "c"
        · rw [if_pos h2] at hsp
          obtain ⟨rfl, rfl⟩ := h2
          injection hsp with h3
          subst h3
          decide
        · rw [if_neg h2] at hsp
          exact absurd hsp (by simp))
    (by
      intro d hd hj e l s h2 hsp
      simp only [List.mem_cons, List.not_mem_nil, or_false] at hd
      rcases hd with rfl | rfl
      · exact absurd hj (by decide)
      · have he : e = pys "c" := by
          have hc : resolveJunctionEdge
              [(pys "S", ([pys "a"], [])), (pys "J", ([], [pys "c"]))]
              Prod.snd (pys ":J_0") = some (pys "c") := by decide
          rw [hc] at h2
          exact (Option.some_inj.mp h2).symm
        subst he
        simp only [] at hsp
        rw [if_neg (fun hco : s = pys "a" ∧ pys "c" = pys "b" => absurd hco.2 (by decide))] at hsp
        by_cases hs : s = pys "b"
        · rw [if_pos ⟨hs, trivial⟩] at hsp
          injection hsp with h3
          subst h3
          decide
        · rw [if_neg (fun hco : s = pys "b" ∧ True => hs hco.1)] at hsp
          exact absurd hsp (by simp))
    (by
      intro s d l hleg
      simp only [] at hleg
      by_cases h1 : s = pys "a" ∧ d = pys "b"
      · rw [if_pos h1] at hleg
        obtain ⟨rfl, rfl⟩ := h1
        injection hleg with h2
        subst h2
        decide
      · rw [if_neg h1] at hleg
        by_cases h2 : s = pys "b" ∧ d = pys "c"
        · rw [if_pos h2] at hleg
          obtain ⟨rfl, rfl⟩ := h2
          injection hleg with h3
          subst h3
          decide
        · rw [if_neg h2] at hleg
          exact absurd hleg (by simp))
    (by
      intro d hd hj e l s h2 hleg
      simp only [List.mem_cons, List.not_mem_nil, or_false] at hd
      rcases hd with rfl | rfl
      · exact absurd hj (by decide)
      · have he : e = pys "c" := by
          have hc : resolveJunctionEdge
              [(pys "S", ([pys "a"], [])), (pys "J", ([], [pys "c"]))]
              Prod.snd (pys ":J_0") = some (pys "c") := by decide
          rw [hc] at h2
          exact (Option.some_inj.mp h2).symm
        subst he
        simp only [] at hleg
        rw [if_neg (fun hco : s = pys "a" ∧ pys "c" = pys "b" => absurd hco.2 (by decide))] at hleg
        by_cases hs : s = pys "b"
        · rw [if_pos ⟨hs, trivial⟩] at hleg
          injection hleg with h3
          subst h3
          decide
        · rw [if_neg (fun hco : s = pys "b" ∧ True => hs hco.1)] at hleg
          exact absurd hleg (by simp))
  exact ⟨h.1 [pys "b", pys "m"] (by decide),
    h.2 [pys "b", pys "m", pys "m"] (by decide)⟩

/-- A non-junction id is non-empty. -/
theorem isJunction_ne_nil {s : PyStr} {b : Bool} (h : isJunction s = some b) :
    s ≠ [] := by
  intro he
  subst he
  simp [isJunction] at h

/-- `correctRoute` is the identity on a clean sound leg: non-junction
endpoints, no leading anti-parallel pair, no trailing anti-parallel pair. -/
theorem correctRoute_noop (s d : PyStr) (r : List PyStr)
    (hs : isJunction s = some false)
    (hd : isJunction d = some false)
    (hhead : r ≠ [] → r.head? = some s)
    (hlast : r ≠ [] → r.getLast? = some d)
    (hclean : legCleanB r = true) :
    correctRoute s d r = some r := by
  rw [correctRoute]
  by_cases hlen : 1 < r.length
  · rw [if_pos hlen]
    obtain ⟨o, ho⟩ := getOppositeEdge_isSome s (isJunction_ne_nil hs)
    obtain ⟨o2, ho2⟩ := getOppositeEdge_isSome d (isJunction_ne_nil hd)
    have hrne : r ≠ [] := by
      intro he
      rw [he] at hlen
      simp at hlen
    obtain ⟨hno, hlp⟩ := Bool.and_eq_true_iff.mp hclean
    have hpop1 : (r[1]? == some o) = false := by
      cases r with
      | nil => exact absurd rfl hrne
      | cons e0 r1 =>
        cases r1 with
        | nil => simp at hlen
        | cons e1 r2 =>
          have he0 : e0 = s := by
            have := hhead hrne
            simp only [List.head?_cons, Option.some_inj] at this
            exact this
          subst he0
          simp only [noOppStartB, ho] at hno
          simp only [List.getElem?_cons_succ, List.getElem?_cons_zero]
          simpa using hno
    cases hv : r[r.length - 2]? with
    | none =>
      have hge := List.getElem?_eq_none_iff.mp hv
      omega
    | some v =>
      have hpop2 : (v == o2) = false := by
        simp only [legCleanB, lastPairOppositeB, Bool.and_eq_true] at hclean
        have hlp2 := hclean.2
        simp only [Bool.not_eq_true'] at hlp2
        rw [Bool.and_eq_false_iff] at hlp2
        rcases hlp2 with h9 | h9
        · rw [decide_eq_false_iff_not] at h9
          exact absurd hlen h9
        · rw [hlast hrne, Option.some_bind, ho2, hv] at h9
          simpa using h9
      have hlt : ¬ r.length < 2 := by omega
      simp only [hs, hd, ho, ho2, hv, hpop1, hpop2, Option.pure_def,
        Option.bind_eq_bind, Option.some_bind, Bool.false_eq_true, if_false,
        hlt, Option.some_inj]
  · rw [if_neg hlen]
    rfl

/-- The non-first phase of the src-variant duarouter loop: with clean sound
legs of at least two edges, each leg is appended with its leading edge
dropped, and no further trim is applied. -/
theorem srcDuaRouteLoop_nonfirst (gpairs : List (PyStr × PyStr))
    (leg : PyStr → PyStr → ℕ ⊕ List PyStr)
    (jdict : List (PyStr × (List PyStr × List PyStr))) :
    ∀ (dests : List PyStr) (src : PyStr) (route : List PyStr),
      isJunction src = some false →
      (∀ x ∈ dests, isJunction x = some false) →
      callsOkB gpairs (spOfLeg leg) src dests = true →
      (legsOf (spOfLeg leg) src dests).all legCleanB = true →
      (∀ l ∈ legsOf (spOfLeg leg) src dests, 2 ≤ l.length) →
      route ≠ [] →
      route.getLast? = some src →
      srcDuaRouteLoop leg jdict dests src route false =
        some (0, some
          (route ++ ((legsOf (spOfLeg leg) src dests).map List.tail).flatten)) := by
  intro dests
  induction dests with
  | nil =>
    intro src route _ _ _ _ _ _ _
    simp [srcDuaRouteLoop, legsOf]
  | cons d ds ih =>
    intro src route hsrc hdests hcalls hclean hlen2 hne hlast
    obtain ⟨r, hsp, hleg, hrec⟩ := callsOkB_cons hcalls
    obtain ⟨hne0, hhead0, hlast0, -, -⟩ := legOkB_unpack hleg
    have hlegr : leg src d = Sum.inr r := by
      cases hl : leg src d with
      | inl rc => simp [spOfLeg, hl] at hsp
      | inr l2 =>
        simp only [spOfLeg, hl, Option.some_inj] at hsp
        rw [hsp]
    have hd : isJunction d = some false := hdests d (List.mem_cons_self d ds)
    have hds : ∀ x ∈ ds, isJunction x = some false :=
      fun x hx => hdests x (List.mem_cons_of_mem d hx)
    have hgetd : (r.getLast?).getD src = d := by
      rw [hlast0, Option.getD_some]
    rw [hgetd] at hrec
    have hlegs : legsOf (spOfLeg leg) src (d :: ds) =
        r :: legsOf (spOfLeg leg) d ds := by
      rw [legsOf_cons ds hsp, hgetd]
    rw [hlegs] at hclean hlen2
    simp only [List.all_cons, Bool.and_eq_true] at hclean
    have hcr : correctRoute src d r = some r :=
      correctRoute_noop src d r hsrc hd (fun _ => hhead0) (fun _ => hlast0) hclean.1
    have hrlen : 2 ≤ r.length := hlen2 r (List.mem_cons_self _ _)
    rw [hlegs]
    cases r with
    | nil => exact absurd rfl hne0
    | cons e0 r1 =>
      have he0 : e0 = src := by
        simp only [List.head?_cons, Option.some_inj] at hhead0
        exact hhead0
      subst he0
      cases r1 with
      | nil => simp at hrlen
      | cons e1 r2 =>
        have hr1last : (e1 :: r2).getLast? = some d := by
          rw [← List.getLast?_cons_cons]
          exact hlast0
        have hr2ne : (route ++ e1 :: r2).isEmpty = false := by
          simp [List.isEmpty_iff]
        simp only [srcDuaRouteLoop, hsrc, hd, hlegr, hcr, Option.pure_def,
          Option.bind_eq_bind, Option.some_bind, Bool.false_eq_true, if_false,
          hr2ne, hr1last]
        rw [ih d (route ++ e1 :: r2) hd hds hrec hclean.2
          (fun l hl => hlen2 l (List.mem_cons_of_mem _ hl))
          (by simp) (append_getLast?_of_leg route (e1 :: r2) e0 d hlast hlast0)]
        simp only [List.map_cons, List.tail_cons, List.flatten_cons,
          List.append_assoc]

/-- The stitching shape of the src-variant `processRouteRequest`: clean sound
legs are concatenated with exactly one leading edge dropped per leg after the
first. -/
theorem srcDuaProcessRouteRequest_stitch (gpairs : List (PyStr × PyStr))
    (leg : PyStr → PyStr → ℕ ⊕ List PyStr)
    (jdict : List (PyStr × (List PyStr × List PyStr)))
    (src : PyStr) (dests : List PyStr)
    (hsrc : isJunction src = some false)
    (hdests : ∀ x ∈ dests, isJunction x = some false)
    (hcalls : callsOkB gpairs (spOfLeg leg) src dests = true)
    (hclean : (legsOf (spOfLeg leg) src dests).all legCleanB = true)
    (hlen2 : ∀ l ∈ (legsOf (spOfLeg leg) src dests).tail, 2 ≤ l.length)
    (hne : dests ≠ []) :
    srcDuaProcessRouteRequest leg jdict src dests =
      some (0, some (stitchLegs (legsOf (spOfLeg leg) src dests))) := by
  match dests, hne with
  | d :: ds, _ =>
    obtain ⟨r, hsp, hleg, hrec⟩ := callsOkB_cons hcalls
    obtain ⟨hne0, hhead0, hlast0, -, -⟩ := legOkB_unpack hleg
    have hlegr : leg src d = Sum.inr r := by
      cases hl : leg src d with
      | inl rc => simp [spOfLeg, hl] at hsp
      | inr l2 =>
        simp only [spOfLeg, hl, Option.some_inj] at hsp
        rw [hsp]
    have hd : isJunction d = some false := hdests d (List.mem_cons_self d ds)
    have hds : ∀ x ∈ ds, isJunction x = some false :=
      fun x hx => hdests x (List.mem_cons_of_mem d hx)
    have hgetd : (r.getLast?).getD src = d := by
      rw [hlast0, Option.getD_some]
    rw [hgetd] at hrec
    have hlegs : legsOf (spOfLeg leg) src (d :: ds) =
        r :: legsOf (spOfLeg leg) d ds := by
      rw [legsOf_cons ds hsp, hgetd]
    rw [hlegs] at hclean hlen2
    simp only [List.all_cons, Bool.and_eq_true] at hclean
    simp only [List.tail_cons] at hlen2
    have hcr : correctRoute src d r = some r :=
      correctRoute_noop src d r hsrc hd (fun _ => hhead0) (fun _ => hlast0) hclean.1
    have hre : r.isEmpty = false := by
      cases r with
      | nil => exact absurd rfl hne0
      | cons a b => rfl
    rw [hlegs]
    simp only [srcDuaProcessRouteRequest, srcDuaRouteLoop, hsrc, hd, hlegr, hcr,
      Option.pure_def, Option.bind_eq_bind, Option.some_bind, Bool.false_eq_true,
      if_false, if_true, List.nil_append, hre, hlast0]
    rw [srcDuaRouteLoop_nonfirst gpairs leg jdict ds d r hd hds hrec hclean.2
      hlen2 hne0 hlast0]
    rfl

/-- C3: for a multi-waypoint request whose per-leg searches are all sound,
both strategies return the per-leg concatenation with one duplicated leading
edge dropped per leg boundary — for `dijkstraRoute.processRouteRequest` up to
the final trailing-opposite pop of lines 83-84, which can remove one more
edge, so the claimed length law `|route| = sum of leg lengths − (#legs − 1)`
holds exactly when that trim does not fire; for
`DuarouterRoute.processRouteRequest` (src variant) the law is exact when
`correctRoute` is the identity on every leg (clean legs) and every later leg
has at least two edges.  `C3_counterexample` refutes the unconditional law
for both variants. -/
theorem C3_concatenation_length (gpairs : List (PyStr × PyStr))
    (sp : PyStr → PyStr → Option (List PyStr))
    (leg : PyStr → PyStr → ℕ ⊕ List PyStr)
    (jd : List (PyStr × (List PyStr × List PyStr)))
    (src : PyStr) (dests : List PyStr) (r rd : List PyStr)
    (hsrc : isJunction src = some false)
    (hdests : ∀ x ∈ dests, isJunction x = some false)
    (h2 : 2 ≤ dests.length) :
    (callsOkB gpairs sp src dests = true →
      firstLegNoTrimB (legsOf sp src dests) = true →
      processRouteRequest sp jd src dests = some (0, some r) →
      r.length + (dests.length - 1) +
          (if lastPairOppositeB (stitchLegs (legsOf sp src dests)) = true
           then 1 else 0) =
        ((legsOf sp src dests).map List.length).sum) ∧
    (callsOkB gpairs (spOfLeg leg) src dests = true →
      (legsOf (spOfLeg leg) src dests).all legCleanB = true →
      (∀ l ∈ (legsOf (spOfLeg leg) src dests).tail, 2 ≤ l.length) →
      srcDuaProcessRouteRequest leg jd src dests = some (0, some rd) →
      rd.length + (dests.length - 1) =
        ((legsOf (spOfLeg leg) src dests).map List.length).sum) := by
  constructor
  · intro hcalls hft hres
    have hne : dests ≠ [] := by
      intro h0
      rw [h0] at h2
      simp at h2
    have hr := processRouteRequest_result hsrc hdests hcalls hne hft hres
    have hlen := stitchLegs_length (legsOf sp src dests)
      (fun l hl => (legsOf_nonempty hcalls l hl).1)
    have hll := legsOf_length hcalls
    by_cases hlp : lastPairOppositeB (stitchLegs (legsOf sp src dests)) = true
    · rw [if_pos hlp] at hr
      rw [hr, if_pos hlp, List.length_dropLast]
      have h1s : 1 < (stitchLegs (legsOf sp src dests)).length := by
        have hlp2 := hlp
        simp only [lastPairOppositeB, Bool.and_eq_true, decide_eq_true_eq] at hlp2
        exact hlp2.1
      omega
    · rw [if_neg hlp] at hr
      rw [hr, if_neg hlp]
      omega
  · intro hcalls hclean hlen2 hres
    have hne : dests ≠ [] := by
      intro h0
      rw [h0] at h2
      simp at h2
    rw [srcDuaProcessRouteRequest_stitch gpairs leg jd src dests hsrc hdests hcalls
      hclean hlen2 hne] at hres
    simp only [Option.some_inj, Prod.mk.injEq, true_and] at hres
    have hlen := stitchLegs_length (legsOf (spOfLeg leg) src dests)
      (fun l hl => (legsOf_nonempty hcalls l hl).1)
    have hll := legsOf_length hcalls
    rw [← hres]
    omega

/-- C3 counterexamples.  Dijkstra variant: two sound legs `[a, x]` and
`[x, -x]` stitch to length 3 by the claimed law, but the final trim also pops
the trailing `-x`, returning `[a, x]` of length 2.  Src duarouter variant:
the first leg `[a, -a, b]` starts with an anti-parallel pair, so
`correctRoute` pops its head and the returned route has length 3, not the
claimed `5 − 1 = 4`. -/
theorem C3_counterexample :
    (processRouteRequest
      (fun s d =>
        if s = pys "a" ∧ d = pys "x" then some [pys "a", pys "x"]
        else if s = pys "x" ∧ d = pys "-x" then some [pys "x", pys "-x"]
        else none)
      [] (pys "a") [pys "x", pys "-x"] = some (0, some [pys "a", pys "x"]) ∧
    legsOf
      (fun s d =>
        if s = pys "a" ∧ d = pys "x" then some [pys "a", pys "x"]
        else if s = pys "x" ∧ d = pys "-x" then some [pys "x", pys "-x"]
        else none)
      (pys "a") [pys "x", pys "-x"] =
      [[pys "a", pys "x"], [pys "x", pys "-x"]] ∧
    ¬ ([pys "a", pys "x"] : List PyStr).length =
      (([[pys "a", pys "x"], [pys "x", pys "-x"]] :
        List (List PyStr)).map List.length).sum - 1) ∧
    (srcDuaProcessRouteRequest
      (fun s d =>
        if s = pys "a" ∧ d = pys "b" then Sum.inr [pys "a", pys "-a", pys "b"]
        else if s = pys "b" ∧ d = pys "c" then Sum.inr [pys "b", pys "c"]
        else Sum.inl 1)
      [] (pys "a") [pys "b", pys "c"] =
      some (0, some [pys "-a", pys "b", pys "c"]) ∧
    legsOf
      (spOfLeg (fun s d =>
        if s = pys "a" ∧ d = pys "b" then Sum.inr [pys "a", pys "-a", pys "b"]
        else if s = pys "b" ∧ d = pys "c" then Sum.inr [pys "b", pys "c"]
        else Sum.inl 1))
      (pys "a") [pys "b", pys "c"] =
      [[pys "a", pys "-a", pys "b"], [pys "b", pys "c"]] ∧
    ¬ ([pys "-a", pys "b", pys "c"] : List PyStr).length =
      (([[pys "a", pys "-a", pys "b"], [pys "b", pys "c"]] :
        List (List PyStr)).map List.length).sum - 1) := by
  refine ⟨⟨by decide, by decide, by decide⟩, ⟨by decide, by decide, by decide⟩⟩

/-- Witness for C3_concatenation_length: clean legs `[a, x]`, `[x, y]` under
both strategies. -/
theorem C3_concatenation_length_witness :
    (([pys "a", pys "x", pys "y"] : List PyStr).length +
        (([pys "x", pys "y"] : List PyStr).length - 1) +
        (if lastPairOppositeB
            (stitchLegs
              (legsOf
                (fun s d =>
                  if s = pys "a" ∧ d = pys "x" then some [pys "a", pys "x"]
                  else if s = pys "x" ∧ d = pys "y" then some [pys "x", pys "y"]
                  else none)
                (pys "a") [pys "x", pys "y"])) = true
         then 1 else 0) =
      ((legsOf
          (fun s d =>
            if s = pys "a" ∧ d = pys "x" then some [pys "a", pys "x"]
            else if s = pys "x" ∧ d = pys "y" then some [pys "x", pys "y"]
            else none)
          (pys "a") [pys "x", pys "y"]).map List.length).sum) ∧
    (([pys "a", pys "x", pys "y"] : List PyStr).length +
        (([pys "x", pys "y"] : List PyStr).length - 1) =
      ((legsOf
          (spOfLeg (fun s d =>
            if s = pys "a" ∧ d = pys "x" then Sum.inr [pys "a", pys "x"]
            else if s = pys "x" ∧ d = pys "y" then Sum.inr [pys "x", pys "y"]
            else Sum.inl 1))
          (pys "a") [pys "x", pys "y"]).map List.length).sum) := by
  have h := C3_concatenation_length
    [(pys "a", pys "x"), (pys "x", pys "y")]
    (fun s d =>
      if s = pys "a" ∧ d = pys "x" then some [pys "a", pys "x"]
      else if s = pys "x" ∧ d = pys "y" then some [pys "x", pys "y"]
      else none)
    (fun s d =>
      if s = pys "a" ∧ d = pys "x" then Sum.inr [pys "a", pys "x"]
      else if s = pys "x" ∧ d = pys "y" then Sum.inr [pys "x", pys "y"]
      else Sum.inl 1)
    [] (pys "a") [pys "x", pys "y"] [pys "a", pys "x", pys "y"]
    [pys "a", pys "x", pys "y"]
    (by decide) (by decide) (by decide)
  exact ⟨h.1 (by decide) (by decide) (by decide),
    h.2 (by decide) (by decide) (by decide) (by decide)⟩
